import Mathlib

/-!
Verification of the token-lending program's borrow accounting core.

The repository fragment contains the program's borrow-instruction test suite
(`tests/borrow_obligation_liquidity.rs`) and the event-log record definitions
(`src/logs.rs`).  The numeric and state-transition engine itself (the
`Decimal` fixed-point library, `Reserve`/`Obligation` state and the
`BorrowObligationLiquidity` handler) is not part of the fragment, so it is
modelled here from the specification (sections 3, 4.1, 4.5, 4.6, 7), kept
consistent with every concrete assertion made by the in-repository tests
(fee amounts, borrow-limit behaviour, obligation borrow-entry contents).
-/

namespace TokenLending

/-- Scale of the fixed-point `Decimal`/`Rate` representation: 10^18 (a "wad"). -/
def WAD : Nat := 1000000000000000000

/-- Modelled from the spec: `Decimal` is "backed by an unsigned integer wide
enough to avoid overflow during multiplication ... (at least 192 bits of
intermediate precision)"; checked operations fail once an intermediate value
reaches `2 ^ 192`. -/
def U192_LIMIT : Nat := 2 ^ 192

/-- Bound of a 64-bit unsigned integer amount (exclusive). -/
def U64_LIMIT : Nat := 2 ^ 64

/-- The maximum representable `u64` amount, used as the "borrow as much as
currently allowed" sentinel by the borrow instruction. -/
def U64_MAX : Nat := 2 ^ 64 - 1

/-- Error kinds of the lending engine (spec section 7 taxonomy). -/
inductive LendingError where
  | InvalidAmount
  | MathOverflow
  | BorrowTooLarge
  | BorrowTooSmall
  | InsufficientLiquidity
  | ObligationStale
  | ReserveStale
  | TooManyObligationReserves
  | InvalidAccountInput
  deriving DecidableEq, Repr

/-- Modelled from the spec: checked `Decimal` addition; fails with a
MathOverflow condition once the sum leaves the 192-bit backing range. -/
def tryAdd (a b : Nat) : Option Nat :=
  if a + b < U192_LIMIT then some (a + b) else none

/-- Modelled from the spec: checked `Decimal` subtraction; fails when the
result would be negative for the unsigned representation. -/
def trySub (a b : Nat) : Option Nat :=
  if b ≤ a then some (a - b) else none

/-- Modelled from the spec: checked `Decimal` (or `Rate`) multiplication of two
wad-scaled values: the raw product is checked against the backing width and
then rescaled by truncating division. -/
def tryMul (a b : Nat) : Option Nat :=
  if a * b < U192_LIMIT then some (a * b / WAD) else none

/-- Modelled from the spec: checked `Decimal` division of wad-scaled values;
truncates toward zero; fails on a zero divisor or intermediate overflow. -/
def tryDiv (a b : Nat) : Option Nat :=
  if b = 0 then none
  else if a * WAD < U192_LIMIT then some (a * WAD / b) else none

/-- Modelled from the spec: checked multiplication of a wad-scaled `Decimal`
by a plain integer amount (no rescaling). -/
def tryMulU (a x : Nat) : Option Nat :=
  if a * x < U192_LIMIT then some (a * x) else none

/-- Modelled from the spec: truncating division of a wad-scaled `Decimal` by a
plain integer amount; fails on a zero divisor. -/
def tryDivU (a x : Nat) : Option Nat :=
  if x = 0 then none else some (a / x)

/-- Conversion of a plain integer amount into the wad scale ("all conversions
from integer amounts multiply by the scale exactly once"). -/
def natToDec (x : Nat) : Nat := x * WAD

/-- Modelled from the spec: floor conversion of a `Decimal` back to a `u64`
amount (floor rounding for amounts owed to the protocol). -/
def tryFloorU64 (a : Nat) : Option Nat :=
  if a / WAD < U64_LIMIT then some (a / WAD) else none

/-- Modelled from the spec: ceiling conversion of a `Decimal` back to a `u64`
amount (ceiling rounding for amounts owed by the protocol's counterparty). -/
def tryCeilU64 (a : Nat) : Option Nat :=
  if (a + (WAD - 1)) / WAD < U64_LIMIT then some ((a + (WAD - 1)) / WAD) else none

/-- Modelled from the spec: the ideal (unchecked) value of the
repeated-squaring fixed-point power, with truncating rescaling at each step. -/
def powRaw (b : Nat) (e : Nat) : Nat :=
  if e = 0 then WAD
  else if e = 1 then b
  else
    let rest := powRaw (b * b / WAD) (e / 2)
    if e % 2 = 1 then rest * b / WAD else rest
termination_by e
decreasing_by
  simp_wf
  omega

/-- Modelled from the spec: whether the repeated-squaring power computation
overflows the 192-bit intermediate width at some step. -/
def powOverflows (b : Nat) (e : Nat) : Bool :=
  if e = 0 then false
  else if e = 1 then false
  else
    decide (U192_LIMIT ≤ b * b) ||
      (powOverflows (b * b / WAD) (e / 2) ||
        (decide (e % 2 = 1) && decide (U192_LIMIT ≤ powRaw (b * b / WAD) (e / 2) * b)))
termination_by e
decreasing_by
  simp_wf
  omega

/-- Modelled from the spec: checked fixed-point power with integer exponent,
"computed via repeated squaring on the fixed-point type to bound iteration
count"; every intermediate multiplication is checked. -/
def tryPow (b : Nat) (e : Nat) : Option Nat :=
  if e = 0 then some WAD
  else if e = 1 then some b
  else
    (tryMul b b).bind fun sq =>
      (tryPow sq (e / 2)).bind fun rest =>
        if e % 2 = 1 then tryMul rest b else some rest
termination_by e
decreasing_by
  simp_wf
  omega

/-- Bind an optional intermediate value into an `Except` computation, failing
with the given error when the value is missing (the `ok_or(...)?` pattern of
the source language). -/
def obindE {α β : Type} (o : Option α) (e : LendingError)
    (f : α → Except LendingError β) : Except LendingError β :=
  match o with
  | none => .error e
  | some a => f a

/-- Sequence two fallible computations, propagating the first failure (the
`?` operator of the source language). -/
def ebind {α β : Type} (x : Except LendingError α)
    (f : α → Except LendingError β) : Except LendingError β :=
  match x with
  | .error e => .error e
  | .ok a => f a

/-- Fee configuration of a reserve: the borrow-fee rate as a wad-scaled `u64`
and the host-fee share as a percentage in `[0, 100]`. -/
structure ReserveFees where
  borrowFeeWad : Nat
  hostFeePercentage : Nat
  deriving DecidableEq, Repr

/-- Whether a fee is added on top of the requested net amount (exclusive) or
carved out of the requested gross amount (inclusive). -/
inductive FeeCalculation where
  | exclusive
  | inclusive
  deriving DecidableEq, Repr

/-- Modelled from the spec: the raw (pre-minimum) borrow fee as a wad-scaled
`Decimal`.  Exclusive: `amount * rate`.  Inclusive: `amount * (rate / (rate + 1))`,
so that the fee is carved out of the gross amount. -/
def rawBorrowFee (fees : ReserveFees) (amount : Nat) : FeeCalculation → Option Nat
  | .exclusive => tryMul amount fees.borrowFeeWad
  | .inclusive =>
    (tryDiv fees.borrowFeeWad (fees.borrowFeeWad + WAD)).bind fun r =>
      tryMul amount r

/-- Scale factor turning a percentage in `[0, 100]` into a wad-scaled rate. -/
def PCT_SCALE : Nat := WAD / 100

/-- Modelled from the spec: the minimum total borrow fee, one token to the
protocol receiver plus one to the host receiver when a host share is
assessed. -/
def minimumBorrowFee (fees : ReserveFees) : Nat :=
  if 0 < fees.hostFeePercentage then natToDec 2 else natToDec 1

/-- The assessed borrow fee as a wad-scaled `Decimal`: the raw fee, at least
the minimum fee. -/
def borrowFeeDec (fees : ReserveFees) (rawFee : Nat) : Nat :=
  max rawFee (minimumBorrowFee fees)

/-- Modelled from the spec: the host-fee share of an assessed fee: the
configured percentage of the fee, rounded up, at least one token; zero when no
host share is configured. -/
def hostFeeCeil (fees : ReserveFees) (feeDec : Nat) : Except LendingError Nat :=
  if 0 < fees.hostFeePercentage then
    obindE (tryMul feeDec (fees.hostFeePercentage * PCT_SCALE)) .MathOverflow fun hostDec =>
    obindE (tryCeilU64 hostDec) .MathOverflow fun hostCeil =>
    .ok (max hostCeil 1)
  else .ok 0

/-- Modelled from the spec: `calculate_borrow_fees` of the reserve (missing
from the fragment).  The total borrow fee is the configured rate of the gross
borrow, rounded up in the protocol's favor, with a minimum of one token to the
protocol receiver plus one to the host receiver when a host share is assessed
(the repository's `test_borrow_max_reserves` pins this minimum: a borrow of 10
accrues a gross of 12).  A fee consuming the whole amount fails with
BorrowTooSmall; a zero rate or zero amount assesses no fee. -/
def calculateBorrowFees (fees : ReserveFees) (amount : Nat) (fc : FeeCalculation) :
    Except LendingError (Nat × Nat) :=
  if fees.borrowFeeWad = 0 ∨ amount = 0 then .ok (0, 0)
  else
    obindE (rawBorrowFee fees amount fc) .MathOverflow fun rawFee =>
    if amount ≤ borrowFeeDec fees rawFee then .error .BorrowTooSmall
    else
      obindE (tryCeilU64 (borrowFeeDec fees rawFee)) .MathOverflow fun borrowFee =>
      ebind (hostFeeCeil fees (borrowFeeDec fees rawFee)) fun hostFee =>
      .ok (borrowFee, hostFee)

/-- Liquidity state of a reserve (spec section 3): available amount, borrowed
amount (wad), cumulative borrow rate (wad), market price (wad), liquidity mint
decimals. -/
structure ReserveLiquidity where
  availableAmount : Nat
  borrowedAmountWads : Nat
  cumulativeBorrowRateWads : Nat
  marketPrice : Nat
  mintDecimals : Nat
  deriving DecidableEq, Repr

/-- Configuration of a reserve, restricted to the fields the borrow path
reads. -/
structure ReserveConfig where
  loanToValuePct : Nat
  borrowLimit : Nat
  fees : ReserveFees
  deriving DecidableEq, Repr

/-- A liquidity reserve together with its staleness flag (`stale = false`
means Fresh). -/
structure Reserve where
  liquidity : ReserveLiquidity
  config : ReserveConfig
  stale : Bool
  deriving DecidableEq, Repr

/-- Result of `calculate_borrow`: gross borrow (wad), net amount received by
the borrower (`u64`), total borrow fee and host-fee share (`u64`). -/
structure CalculateBorrowResult where
  borrowAmount : Nat
  receiveAmount : Nat
  borrowFee : Nat
  hostFee : Nat
  deriving DecidableEq, Repr

/-- The gross amount of a sentinel borrow: the converted remaining allowed
value, capped by the remaining borrow-limit capacity and by the available
liquidity. -/
def sentinelGross (reserve : Reserve) (conv cap : Nat) : Nat :=
  min (min conv cap) (natToDec reserve.liquidity.availableAmount)

/-- Modelled from the spec (section 4.5), sentinel branch of
`Reserve::calculate_borrow`: the remaining allowed borrow value is converted
to liquidity units at the current price, capped by the remaining borrow-limit
capacity and the available liquidity; the fee is carved out of that gross
amount (inclusive) and the net amount is its floor. -/
def calculateSentinelBorrow (reserve : Reserve) (maxBorrowValue remainingReserveCapacity : Nat) :
    Except LendingError CalculateBorrowResult :=
  obindE (tryMulU maxBorrowValue (10 ^ reserve.liquidity.mintDecimals)) .MathOverflow fun v =>
  obindE (tryDiv v reserve.liquidity.marketPrice) .MathOverflow fun conv =>
  ebind (calculateBorrowFees reserve.config.fees
      (sentinelGross reserve conv remainingReserveCapacity) .inclusive) fun fh =>
  obindE (trySub (sentinelGross reserve conv remainingReserveCapacity) (natToDec fh.1))
      .MathOverflow fun net =>
  obindE (tryFloorU64 net) .MathOverflow fun receive =>
  .ok ⟨sentinelGross reserve conv remainingReserveCapacity, receive, fh.1, fh.2⟩

/-- Modelled from the spec: the market value of a gross borrow amount (wad),
`gross * market_price / 10^mint_decimals`, as computed when checking a borrow
against the remaining allowed value. -/
def borrowValueOf (reserve : Reserve) (grossWads : Nat) : Option Nat :=
  (tryMul grossWads reserve.liquidity.marketPrice).bind fun v =>
    tryDivU v (10 ^ reserve.liquidity.mintDecimals)

/-- Modelled from the spec (section 4.5), literal branch of
`Reserve::calculate_borrow`: the requested amount is the net amount, the fee
is added on top of it (exclusive); the gross amount must neither exceed the
remaining borrow-limit capacity (InvalidAmount) nor have a market value above
the remaining allowed borrow value (BorrowTooLarge). -/
def calculateLiteralBorrow (reserve : Reserve) (amountToBorrow maxBorrowValue remainingReserveCapacity : Nat) :
    Except LendingError CalculateBorrowResult :=
  ebind (calculateBorrowFees reserve.config.fees (natToDec amountToBorrow) .exclusive) fun fh =>
  obindE (tryAdd (natToDec amountToBorrow) (natToDec fh.1)) .MathOverflow fun borrowAmount =>
  if remainingReserveCapacity < borrowAmount then .error .InvalidAmount
  else
    obindE (tryMul borrowAmount reserve.liquidity.marketPrice) .MathOverflow fun v =>
    obindE (tryDivU v (10 ^ reserve.liquidity.mintDecimals)) .MathOverflow fun borrowValue =>
    if maxBorrowValue < borrowValue then .error .BorrowTooLarge
    else .ok ⟨borrowAmount, amountToBorrow, fh.1, fh.2⟩

/-- Modelled from the spec: `Reserve::calculate_borrow` (missing from the
fragment), dispatching on the `u64::MAX` sentinel. -/
def calculateBorrow (reserve : Reserve) (amountToBorrow maxBorrowValue remainingReserveCapacity : Nat) :
    Except LendingError CalculateBorrowResult :=
  if amountToBorrow = U64_MAX then
    calculateSentinelBorrow reserve maxBorrowValue remainingReserveCapacity
  else
    calculateLiteralBorrow reserve amountToBorrow maxBorrowValue remainingReserveCapacity

/-- Modelled from the spec: `ReserveLiquidity::borrow` (missing from the
fragment): the gross amount must not exceed the available liquidity
(InsufficientLiquidity); on success the available amount decreases by the
floor of the gross amount and the borrowed balance grows by the full gross
`Decimal`. -/
def liquidityBorrow (liq : ReserveLiquidity) (borrowDecimal : Nat) :
    Except LendingError ReserveLiquidity :=
  obindE (tryFloorU64 borrowDecimal) .MathOverflow fun borrowAmount =>
  if liq.availableAmount < borrowAmount then .error .InsufficientLiquidity
  else
    obindE (tryAdd liq.borrowedAmountWads borrowDecimal) .MathOverflow fun nb =>
    .ok { liq with
          availableAmount := liq.availableAmount - borrowAmount,
          borrowedAmountWads := nb }

/-- One borrowed-liquidity entry of an obligation: reserve reference (modelled
as a numeric key), cumulative-borrow-rate snapshot, borrowed amount (wad) and
cached market value (wad). -/
structure ObligationLiquidity where
  borrowReserve : Nat
  cumulativeBorrowRateWads : Nat
  borrowedAmountWads : Nat
  marketValue : Nat
  deriving DecidableEq, Repr

/-- One collateral-deposit entry of an obligation. -/
structure ObligationCollateral where
  depositReserve : Nat
  depositedAmount : Nat
  deriving DecidableEq, Repr

/-- A borrower obligation: bounded deposit/borrow collections, aggregate
valuation fields and staleness flag (spec section 3). -/
structure Obligation where
  deposits : List ObligationCollateral
  borrows : List ObligationLiquidity
  depositedValue : Nat
  borrowedValue : Nat
  allowedBorrowValue : Nat
  unhealthyBorrowValue : Nat
  stale : Bool
  deriving DecidableEq, Repr

/-- Modelled from the spec: capacity bound of the obligation's combined
deposit/borrow collection (the in-repository test exercises seven distinct
entries successfully, so the bound is at least eight; the upstream constant is
ten). -/
def MAX_OBLIGATION_RESERVES : Nat := 10

/-- The borrowed amount (wads) recorded for a given reserve key in a borrow
list, zero when the list has no entry for the key. -/
def borrowedOfList (key : Nat) (l : List ObligationLiquidity) : Nat :=
  match l.find? (fun e => e.borrowReserve = key) with
  | some e => e.borrowedAmountWads
  | none => 0

/-- The borrowed amount (wads) recorded for a reserve key in an obligation. -/
def borrowedOf (ob : Obligation) (key : Nat) : Nat :=
  borrowedOfList key ob.borrows

/-- Whether an obligation already holds a borrow entry for a reserve key. -/
def hasBorrowEntry (ob : Obligation) (key : Nat) : Bool :=
  (ob.borrows.find? (fun e => e.borrowReserve = key)).isSome

/-- Modelled from the spec: accumulate a gross borrow into the entry for the
given reserve key, or append a fresh entry (snapshotting the given cumulative
borrow rate, with zero market value) when no entry exists.  Entry
accumulation goes through the checked `Decimal` addition. -/
def addToBorrows (key cum g : Nat) : List ObligationLiquidity →
    Except LendingError (List ObligationLiquidity)
  | [] => .ok [⟨key, cum, g, 0⟩]
  | e :: rest =>
    if e.borrowReserve = key then
      obindE (tryAdd e.borrowedAmountWads g) .MathOverflow fun nb =>
      .ok ({ e with borrowedAmountWads := nb } :: rest)
    else
      ebind (addToBorrows key cum g rest) fun rest2 =>
      .ok (e :: rest2)

/-- Modelled from the spec: `Obligation::find_or_add_liquidity_to_borrows`
followed by the entry-level borrow (missing from the fragment): creating a new
entry fails with TooManyObligationReserves when the obligation already holds
the maximum number of entries and this reserve is not among them; otherwise
the gross amount accumulates into the (possibly fresh) entry and the
obligation is marked stale. -/
def obligationBorrow (ob : Obligation) (key cum g : Nat) :
    Except LendingError Obligation :=
  if hasBorrowEntry ob key = false ∧
      MAX_OBLIGATION_RESERVES ≤ ob.deposits.length + ob.borrows.length then
    .error .TooManyObligationReserves
  else
    ebind (addToBorrows key cum g ob.borrows) fun bs =>
    .ok { ob with borrows := bs, stale := true }

/-- The token-transfer instructions emitted by a successful borrow: net amount
to the borrower, remainder of the fee to the protocol fee receiver, host share
to the host fee receiver. -/
structure BorrowTransfers where
  netToBorrower : Nat
  ownerFeeTransfer : Nat
  hostFeeTransfer : Nat
  deriving DecidableEq, Repr

/-- The fee split of the emitted transfers: the host share is routed to the
host receiver only when a host fee account was provided and the share is
positive; the protocol fee receiver collects the remainder. -/
def mkBorrowTransfers (r : CalculateBorrowResult) (hostProvided : Bool) : BorrowTransfers :=
  if hostProvided = true ∧ 0 < r.hostFee then
    ⟨r.receiveAmount, r.borrowFee - r.hostFee, r.hostFee⟩
  else
    ⟨r.receiveAmount, r.borrowFee, 0⟩

/-- Modelled from the spec (section 4.5): the `BorrowObligationLiquidity`
handler (missing from the fragment).  Preconditions: non-zero amount
(InvalidAmount), Fresh reserve and obligation (ReserveStale/ObligationStale),
positive remaining allowed borrow value (BorrowTooLarge).  The gross amount is
computed by `calculateBorrow`; a zero net amount fails with BorrowTooSmall.
On success the reserve's liquidity and the obligation's borrow entry are
updated, both structures are marked stale, and the transfer instructions are
emitted. -/
def processBorrowObligationLiquidity (liquidityAmount : Nat) (reserve : Reserve)
    (obligation : Obligation) (reserveKey : Nat) (hostProvided : Bool) :
    Except LendingError (Reserve × Obligation × BorrowTransfers) :=
  if liquidityAmount = 0 then .error .InvalidAmount
  else if reserve.stale then .error .ReserveStale
  else if obligation.stale then .error .ObligationStale
  else
    obindE (trySub obligation.allowedBorrowValue obligation.borrowedValue)
        .MathOverflow fun remaining =>
    if remaining = 0 then .error .BorrowTooLarge
    else
      obindE (trySub (natToDec reserve.config.borrowLimit) reserve.liquidity.borrowedAmountWads)
          .MathOverflow fun capacity =>
      ebind (calculateBorrow reserve liquidityAmount remaining capacity) fun r =>
      if r.receiveAmount = 0 then .error .BorrowTooSmall
      else
        ebind (liquidityBorrow reserve.liquidity r.borrowAmount) fun liq2 =>
        ebind (obligationBorrow obligation reserveKey
            reserve.liquidity.cumulativeBorrowRateWads r.borrowAmount) fun ob2 =>
        .ok ({ reserve with liquidity := liq2, stale := true }, ob2,
             mkBorrowTransfers r hostProvided)

/-- Modelled from the spec: decrease or prune the borrow entry for a key by a
settled amount; the entry is removed when its balance reaches zero. -/
def repayFromBorrows (key settle : Nat) : List ObligationLiquidity → List ObligationLiquidity
  | [] => []
  | e :: rest =>
    if e.borrowReserve = key then
      if settle = e.borrowedAmountWads then rest
      else { e with borrowedAmountWads := e.borrowedAmountWads - settle } :: rest
    else e :: repayFromBorrows key settle rest

/-- The settled repay amount: the requested amount clamped to the entry's
outstanding balance; the `u64::MAX` sentinel repays the full balance. -/
def repaySettleAmount (amount entryWads : Nat) : Nat :=
  if amount = U64_MAX then entryWads else min (natToDec amount) entryWads

/-- Modelled from the spec (section 4.6): the `RepayObligationLiquidity`
handler (missing from the fragment).  The settled amount is the requested
amount clamped to the entry's outstanding balance (the `u64::MAX` sentinel
repays the full balance); it decreases the matching borrow entry and the
reserve's borrowed balance, removes the entry when it reaches zero, and emits
a transfer of the ceiling of the settled amount into the reserve's supply. -/
def processRepayObligationLiquidity (amount : Nat) (reserve : Reserve)
    (obligation : Obligation) (reserveKey : Nat) :
    Except LendingError (Reserve × Obligation × Nat) :=
  if amount = 0 then .error .InvalidAmount
  else if reserve.stale then .error .ReserveStale
  else if obligation.stale then .error .ObligationStale
  else if hasBorrowEntry obligation reserveKey = false then .error .InvalidAccountInput
  else
    obindE (tryCeilU64 (repaySettleAmount amount (borrowedOf obligation reserveKey)))
        .MathOverflow fun repayAmount =>
    if U64_LIMIT ≤ reserve.liquidity.availableAmount + repayAmount then .error .MathOverflow
    else
      obindE (trySub reserve.liquidity.borrowedAmountWads
          (repaySettleAmount amount (borrowedOf obligation reserveKey)))
          .MathOverflow fun nb =>
      .ok ({ reserve with
             liquidity := { reserve.liquidity with
               availableAmount := reserve.liquidity.availableAmount + repayAmount,
               borrowedAmountWads := nb },
             stale := true },
           { obligation with
             borrows := repayFromBorrows reserveKey
               (repaySettleAmount amount (borrowedOf obligation reserveKey))
               obligation.borrows,
             stale := true },
           repayAmount)

/-- The pair of structures a lending operation may mutate, together with the
key identifying the target reserve. -/
structure MarketState where
  reserve : Reserve
  obligation : Obligation
  reserveKey : Nat
  deriving DecidableEq, Repr

/-- The operations modelled over a `MarketState`. -/
inductive LendingOp where
  | borrow (amount : Nat) (hostProvided : Bool)
  | repay (amount : Nat)
  deriving DecidableEq, Repr

/-- Dispatch one operation against the state, returning the updated state or
the handler's failure. -/
def applyOp (st : MarketState) : LendingOp → Except LendingError MarketState
  | .borrow a hp =>
    ebind (processBorrowObligationLiquidity a st.reserve st.obligation st.reserveKey hp) fun r =>
    .ok ⟨r.1, r.2.1, st.reserveKey⟩
  | .repay a =>
    ebind (processRepayObligationLiquidity a st.reserve st.obligation st.reserveKey) fun r =>
    .ok ⟨r.1, r.2.1, st.reserveKey⟩

/-- Run a sequence of operations in strict order, stopping at the first
failure (spec section 5: composed operations execute in strict sequence). -/
def applySeq (st : MarketState) : List LendingOp → Except LendingError MarketState
  | [] => .ok st
  | op :: rest =>
    ebind (applyOp st op) fun st2 =>
    applySeq st2 rest

/-- The all-or-nothing transaction semantics the surrounding runtime gives a
sequence of operations: if any step fails, every effect is discarded and the
pre-transaction state is kept (spec sections 5 and 7). -/
def runTransaction (st : MarketState) (ops : List LendingOp) : MarketState :=
  match applySeq st ops with
  | .ok s => s
  | .error _ => st

/-! Embedding of `src/logs.rs`: the event-record kinds and the field layout of
each serialized record struct, as declared in the source. -/

/-- The `LogEventType` enum of `logs.rs`, one variant per event record kind. -/
inductive LogEventType where
  | ObligationStateUpdate
  | ProgramVersion
  | PythError
  | PythOraclePriceUpdate
  | ReserveStateUpdate
  | SwitchboardError
  | SwitchboardV1OraclePriceUpdate
  deriving DecidableEq, Repr

/-- The field types appearing in the serialized event records of `logs.rs`. -/
inductive FieldTy where
  | eventTypeTy
  | pubkeyTy
  | decimalTy
  | u64Ty
  | u8Ty
  | stringTy
  | depositLogListTy
  | borrowLogListTy
  deriving DecidableEq, Repr

/-- Fields of `DepositLog` (`logs.rs` lines 103-107): the reserve is
referenced by a `u8` positional index. -/
def depositLogFields : List (String × FieldTy) :=
  [("reserve_id_index", .u8Ty), ("deposited_amount", .u64Ty)]

/-- Fields of `BorrowLog` (`logs.rs` lines 109-114): the reserve is referenced
by a `u8` positional index. -/
def borrowLogFields : List (String × FieldTy) :=
  [("reserve_id_index", .u8Ty), ("borrowed_amount_wads", .decimalTy),
   ("cumulative_borrow_rate_wads", .decimalTy)]

/-- Fields of `ObligationStateUpdate` (`logs.rs` lines 94-101); the struct
intentionally carries no obligation identifier. -/
def obligationStateUpdateFields : List (String × FieldTy) :=
  [("event_type", .eventTypeTy), ("allowed_borrow_value", .decimalTy),
   ("unhealthy_borrow_value", .decimalTy), ("deposits", .depositLogListTy),
   ("borrows", .borrowLogListTy)]

/-- Fields of `PythOraclePriceUpdate` (`logs.rs` lines 41-49). -/
def pythOraclePriceUpdateFields : List (String × FieldTy) :=
  [("event_type", .eventTypeTy), ("oracle_pubkey", .pubkeyTy), ("price", .decimalTy),
   ("confidence", .u64Ty), ("published_slot", .u64Ty)]

/-- Fields of `PythError` (`logs.rs` lines 51-57). -/
def pythErrorFields : List (String × FieldTy) :=
  [("event_type", .eventTypeTy), ("oracle_pubkey", .pubkeyTy), ("error_message", .stringTy)]

/-- Fields of `SwitchboardV1OraclePriceUpdate` (`logs.rs` lines 59-66). -/
def switchboardV1OraclePriceUpdateFields : List (String × FieldTy) :=
  [("event_type", .eventTypeTy), ("oracle_pubkey", .pubkeyTy), ("price", .decimalTy),
   ("published_slot", .u64Ty)]

/-- Fields of `SwitchboardError` (`logs.rs` lines 68-74). -/
def switchboardErrorFields : List (String × FieldTy) :=
  [("event_type", .eventTypeTy), ("oracle_pubkey", .pubkeyTy), ("error_message", .stringTy)]

/-- Fields of `ProgramVersion` (`logs.rs` lines 76-80). -/
def programVersionFields : List (String × FieldTy) :=
  [("event_type", .eventTypeTy), ("version", .u8Ty)]

/-- Fields of `ReserveStateUpdate` (`logs.rs` lines 82-90). -/
def reserveStateUpdateFields : List (String × FieldTy) :=
  [("event_type", .eventTypeTy), ("available_amount", .u64Ty),
   ("borrowed_amount_wads", .decimalTy), ("cumulative_borrow_rate_wads", .decimalTy),
   ("collateral_mint_total_supply", .u64Ty), ("collateral_exchange_rate", .stringTy)]

/-- The field layout of the record struct bearing the same name as each
`LogEventType` variant. -/
def eventFields : LogEventType → List (String × FieldTy)
  | .ObligationStateUpdate => obligationStateUpdateFields
  | .ProgramVersion => programVersionFields
  | .PythError => pythErrorFields
  | .PythOraclePriceUpdate => pythOraclePriceUpdateFields
  | .ReserveStateUpdate => reserveStateUpdateFields
  | .SwitchboardError => switchboardErrorFields
  | .SwitchboardV1OraclePriceUpdate => switchboardV1OraclePriceUpdateFields

/-- The reserve references of a borrow list, in order. -/
def reserveKeys (l : List ObligationLiquidity) : List Nat :=
  l.map (fun e => e.borrowReserve)

/-! Concrete market fixtures mirroring the reserve and obligation
configurations exercised by `tests/borrow_obligation_liquidity.rs` (borrow fee
rate `1e-7`, twenty percent host share, fifty percent loan-to-value, USDC-like
six-decimal liquidity at a one-dollar price). -/

/-- The fee configuration of `test_reserve_config()` in the repository's test
helpers: `borrow_fee_wad = 100_000_000_000`, `host_fee_percentage = 20`. -/
def testFees : ReserveFees := ⟨100000000000, 20⟩

/-- A fresh reserve with a borrow limit of 15 units, as in
`test_borrow_limit`. -/
def testReserve : Reserve :=
  { liquidity := { availableAmount := 1000000000, borrowedAmountWads := 0,
                   cumulativeBorrowRateWads := WAD, marketPrice := WAD, mintDecimals := 6 },
    config := { loanToValuePct := 50, borrowLimit := 15, fees := testFees },
    stale := false }

/-- A fresh obligation backed by ample collateral (allowed borrow value of
500000 dollars). -/
def testObligation : Obligation :=
  { deposits := [⟨1, 500000000000000⟩], borrows := [],
    depositedValue := natToDec 1000000, borrowedValue := 0,
    allowedBorrowValue := natToDec 500000, unhealthyBorrowValue := natToDec 550000,
    stale := false }

/-- The market state pairing `testReserve` and `testObligation`. -/
def testState : MarketState := ⟨testReserve, testObligation, 2⟩

/-- The reserve of `testReserve` after its borrow limit has been exhausted:
`borrowed_amount_wads` equals the borrow limit of 15. -/
def satReserve : Reserve :=
  { liquidity := { availableAmount := 999999985, borrowedAmountWads := natToDec 15,
                   cumulativeBorrowRateWads := WAD, marketPrice := WAD, mintDecimals := 6 },
    config := { loanToValuePct := 50, borrowLimit := 15, fees := testFees },
    stale := false }

/-- The obligation after the saturating borrow against `satReserve`. -/
def satObligation : Obligation :=
  { deposits := [⟨1, 500000000000000⟩], borrows := [⟨2, WAD, natToDec 15, 15000000000000⟩],
    depositedValue := natToDec 1000000, borrowedValue := 15000000000000,
    allowedBorrowValue := natToDec 500000, unhealthyBorrowValue := natToDec 550000,
    stale := false }

/-- A fresh reserve with an effectively unlimited borrow limit, price one
dollar, six decimals. -/
def bigReserve : Reserve :=
  { liquidity := { availableAmount := 1000000000000, borrowedAmountWads := 0,
                   cumulativeBorrowRateWads := WAD, marketPrice := WAD, mintDecimals := 6 },
    config := { loanToValuePct := 50, borrowLimit := 18446744073709551615, fees := testFees },
    stale := false }

/-- The reserve resulting from borrowing 10 units from `bigReserve`. -/
def borrowedReserve : Reserve :=
  { liquidity := { availableAmount := 999999999988, borrowedAmountWads := natToDec 12,
                   cumulativeBorrowRateWads := WAD, marketPrice := WAD, mintDecimals := 6 },
    config := { loanToValuePct := 50, borrowLimit := 18446744073709551615, fees := testFees },
    stale := true }

/-- The obligation resulting from borrowing 10 units (gross 12) from
`bigReserve` into `testObligation`. -/
def borrowedObligation : Obligation :=
  { deposits := [⟨1, 500000000000000⟩], borrows := [⟨2, WAD, natToDec 12, 0⟩],
    depositedValue := natToDec 1000000, borrowedValue := 0,
    allowedBorrowValue := natToDec 500000, unhealthyBorrowValue := natToDec 550000,
    stale := true }

/-- The transfers emitted by borrowing 10 units (gross 12, fee 2, host 1). -/
def borrowedTransfers : BorrowTransfers := ⟨10, 1, 1⟩

/-- `satObligation` after a further borrow of 3 wads accumulates into its
existing entry for reserve 2. -/
def accumulatedSatObligation : Obligation :=
  { deposits := [⟨1, 500000000000000⟩], borrows := [⟨2, WAD, natToDec 18, 15000000000000⟩],
    depositedValue := natToDec 1000000, borrowedValue := 15000000000000,
    allowedBorrowValue := natToDec 500000, unhealthyBorrowValue := natToDec 550000,
    stale := true }

/-- The reserve liquidity resulting from the exhaustive sentinel borrow of
500000 dollars (500000000000 base units) out of `bigReserve`. -/
def sentinelLiquidity : ReserveLiquidity :=
  { availableAmount := 500000000000, borrowedAmountWads := natToDec 500000000000,
    cumulativeBorrowRateWads := WAD, marketPrice := WAD, mintDecimals := 6 }

/-- The obligation resulting from the exhaustive sentinel borrow of
`bigReserve` into `testObligation`. -/
def sentinelObligation : Obligation :=
  { deposits := [⟨1, 500000000000000⟩], borrows := [⟨2, WAD, natToDec 500000000000, 0⟩],
    depositedValue := natToDec 1000000, borrowedValue := 0,
    allowedBorrowValue := natToDec 500000, unhealthyBorrowValue := natToDec 550000,
    stale := true }

/-- The obligation resulting from the limit-capped sentinel borrow of
`testReserve` into `testObligation`: a fresh entry of 15 wads. -/
def cappedObligation : Obligation :=
  { deposits := [⟨1, 500000000000000⟩], borrows := [⟨2, WAD, natToDec 15, 0⟩],
    depositedValue := natToDec 1000000, borrowedValue := 0,
    allowedBorrowValue := natToDec 500000, unhealthyBorrowValue := natToDec 550000,
    stale := true }

/-! Inversion principles for the plumbing combinators. -/

theorem obindE_ok {α β : Type} {o : Option α} {e : LendingError}
    {f : α → Except LendingError β} {b : β} :
    obindE o e f = .ok b ↔ ∃ a, o = some a ∧ f a = .ok b := by
  cases o <;> simp [obindE]

theorem obindE_error {α β : Type} {o : Option α} {e : LendingError}
    {f : α → Except LendingError β} {e' : LendingError} :
    obindE o e f = .error e' ↔ (o = none ∧ e' = e) ∨ ∃ a, o = some a ∧ f a = .error e' := by
  cases o <;> simp [obindE, eq_comm]

theorem ebind_ok {α β : Type} {x : Except LendingError α}
    {f : α → Except LendingError β} {b : β} :
    ebind x f = .ok b ↔ ∃ a, x = .ok a ∧ f a = .ok b := by
  cases x <;> simp [ebind]

theorem ebind_error {α β : Type} {x : Except LendingError α}
    {f : α → Except LendingError β} {e' : LendingError} :
    ebind x f = .error e' ↔ x = .error e' ∨ ∃ a, x = .ok a ∧ f a = .error e' := by
  cases x <;> simp [ebind]

/-! Inversion lemmas for the checked fixed-point operations. -/

theorem tryAdd_some {a b v : Nat} (h : tryAdd a b = some v) :
    v = a + b ∧ a + b < U192_LIMIT := by
  unfold tryAdd at h
  split at h
  · exact ⟨(Option.some.inj h).symm, by assumption⟩
  · exact absurd h (by simp)

theorem trySub_some {a b v : Nat} (h : trySub a b = some v) :
    v = a - b ∧ b ≤ a := by
  unfold trySub at h
  split at h
  · exact ⟨(Option.some.inj h).symm, by assumption⟩
  · exact absurd h (by simp)

theorem tryMul_some {a b v : Nat} (h : tryMul a b = some v) :
    v = a * b / WAD ∧ a * b < U192_LIMIT := by
  unfold tryMul at h
  split at h
  · exact ⟨(Option.some.inj h).symm, by assumption⟩
  · exact absurd h (by simp)

theorem tryDiv_some {a b v : Nat} (h : tryDiv a b = some v) :
    v = a * WAD / b ∧ b ≠ 0 ∧ a * WAD < U192_LIMIT := by
  unfold tryDiv at h
  split at h
  · exact absurd h (by simp)
  · split at h
    · exact ⟨(Option.some.inj h).symm, by assumption, by assumption⟩
    · exact absurd h (by simp)

theorem tryMulU_some {a x v : Nat} (h : tryMulU a x = some v) :
    v = a * x ∧ a * x < U192_LIMIT := by
  unfold tryMulU at h
  split at h
  · exact ⟨(Option.some.inj h).symm, by assumption⟩
  · exact absurd h (by simp)

theorem tryDivU_some {a x v : Nat} (h : tryDivU a x = some v) :
    v = a / x ∧ x ≠ 0 := by
  unfold tryDivU at h
  split at h
  · exact absurd h (by simp)
  · exact ⟨(Option.some.inj h).symm, by assumption⟩

theorem tryFloorU64_some {a v : Nat} (h : tryFloorU64 a = some v) :
    v = a / WAD ∧ a / WAD < U64_LIMIT := by
  unfold tryFloorU64 at h
  split at h
  · exact ⟨(Option.some.inj h).symm, by assumption⟩
  · exact absurd h (by simp)

theorem tryCeilU64_some {a v : Nat} (h : tryCeilU64 a = some v) :
    v = (a + (WAD - 1)) / WAD ∧ (a + (WAD - 1)) / WAD < U64_LIMIT := by
  unfold tryCeilU64 at h
  split at h
  · exact ⟨(Option.some.inj h).symm, by assumption⟩
  · exact absurd h (by simp)

/-! Structural facts about the fee computation. -/

theorem minimumBorrowFee_ge {fees : ReserveFees} : WAD ≤ minimumBorrowFee fees := by
  unfold minimumBorrowFee
  split <;> simp [natToDec, WAD]

theorem borrowFeeDec_ge {fees : ReserveFees} {rawFee : Nat} :
    WAD ≤ borrowFeeDec fees rawFee :=
  le_trans minimumBorrowFee_ge (le_max_right _ _)

/-- The host-fee share never exceeds the ceiling of the assessed fee. -/
theorem hostFeeCeil_ok_le {fees : ReserveFees} {feeDec hostFee : Nat}
    (hok : hostFeeCeil fees feeDec = .ok hostFee)
    (hpct : fees.hostFeePercentage ≤ 100) (hfd : WAD ≤ feeDec) :
    hostFee ≤ (feeDec + (WAD - 1)) / WAD := by
  unfold hostFeeCeil at hok
  split at hok
  · rw [obindE_ok] at hok
    obtain ⟨hostDec, hmul, hok⟩ := hok
    rw [obindE_ok] at hok
    obtain ⟨hostCeil, hceil, hok⟩ := hok
    have hok2 : max hostCeil 1 = hostFee := Except.ok.inj hok
    obtain ⟨hhd, _⟩ := tryMul_some hmul
    obtain ⟨hhc, _⟩ := tryCeilU64_some hceil
    have hWpos : 0 < WAD := by norm_num [WAD]
    have hfac : fees.hostFeePercentage * PCT_SCALE ≤ WAD := by
      have h1 : fees.hostFeePercentage * PCT_SCALE ≤ 100 * PCT_SCALE :=
        Nat.mul_le_mul_right _ hpct
      have h2 : 100 * PCT_SCALE = WAD := by norm_num [PCT_SCALE, WAD]
      omega
    have hle : hostDec ≤ feeDec := by
      rw [hhd]
      calc feeDec * (fees.hostFeePercentage * PCT_SCALE) / WAD
          ≤ feeDec * WAD / WAD := Nat.div_le_div_right (Nat.mul_le_mul_left _ hfac)
        _ = feeDec := Nat.mul_div_cancel _ hWpos
    have hone : 1 ≤ (feeDec + (WAD - 1)) / WAD := by
      apply (Nat.one_le_div_iff hWpos).mpr
      omega
    have hcc : hostCeil ≤ (feeDec + (WAD - 1)) / WAD := by
      rw [hhc]
      exact Nat.div_le_div_right (Nat.add_le_add_right hle _)
    exact hok2 ▸ max_le hcc hone
  · have h0 : (0 : Nat) = hostFee := Except.ok.inj hok
    exact h0 ▸ Nat.zero_le _

/-- Inversion of a successful fee computation: either no fee was assessed, or
the total fee is the ceiling of the assessed fee decimal and the host share is
given by `hostFeeCeil`. -/
theorem calculateBorrowFees_ok_inv {fees : ReserveFees} {amount : Nat}
    {fc : FeeCalculation} {f h : Nat}
    (hok : calculateBorrowFees fees amount fc = .ok (f, h)) :
    ((fees.borrowFeeWad = 0 ∨ amount = 0) ∧ f = 0 ∧ h = 0) ∨
    ∃ rawFee, rawBorrowFee fees amount fc = some rawFee ∧
      ¬ amount ≤ borrowFeeDec fees rawFee ∧
      tryCeilU64 (borrowFeeDec fees rawFee) = some f ∧
      hostFeeCeil fees (borrowFeeDec fees rawFee) = .ok h := by
  unfold calculateBorrowFees at hok
  split at hok
  · have h2 := Except.ok.inj hok
    left
    refine ⟨by assumption, ?_, ?_⟩
    · exact (congrArg Prod.fst h2).symm
    · exact (congrArg Prod.snd h2).symm
  · rw [obindE_ok] at hok
    obtain ⟨rawFee, hraw, hok⟩ := hok
    right
    refine ⟨rawFee, hraw, ?_⟩
    split at hok
    · exact absurd hok (by simp)
    · rw [obindE_ok] at hok
      obtain ⟨borrowFee, hceil, hok⟩ := hok
      rw [ebind_ok] at hok
      obtain ⟨hostFee, hhost, hok⟩ := hok
      have h2 := Except.ok.inj hok
      have hf : borrowFee = f := congrArg Prod.fst h2
      have hh : hostFee = h := congrArg Prod.snd h2
      subst hf hh
      exact ⟨by assumption, hceil, hhost⟩

/-- The host-fee share of a successful fee computation never exceeds the total
fee. -/
theorem calculateBorrowFees_ok_host_le {fees : ReserveFees} {amount : Nat}
    {fc : FeeCalculation} {f h : Nat}
    (hok : calculateBorrowFees fees amount fc = .ok (f, h))
    (hpct : fees.hostFeePercentage ≤ 100) : h ≤ f := by
  rcases calculateBorrowFees_ok_inv hok with ⟨_, hf, hh⟩ | ⟨rawFee, _, _, hceil, hhost⟩
  · omega
  · obtain ⟨hf, _⟩ := tryCeilU64_some hceil
    have := hostFeeCeil_ok_le hhost hpct borrowFeeDec_ge
    omega

/-- An exact multiple of the scale divided by the scale, shifted by an integer
number of scale units: `(k*WAD - f*WAD) / WAD = k - f`. -/
theorem wad_mul_sub_div (k f : Nat) : (WAD * k - f * WAD) / WAD = k - f := by
  have hWpos : 0 < WAD := by norm_num [WAD]
  have h1 : WAD * k - f * WAD = (k - f) * WAD := by
    rw [Nat.sub_mul, Nat.mul_comm WAD k]
  rw [h1, Nat.mul_div_cancel _ hWpos]

/-- Structure of a successful borrow calculation: the host share is within the
total fee, the fee (in wads) is within the gross amount, and the net amount is
the gross amount in liquidity units minus the total fee whenever the gross
amount is an exact number of units. -/
theorem calculateBorrow_ok_inv {reserve : Reserve} {n mv cap : Nat}
    {r : CalculateBorrowResult}
    (hok : calculateBorrow reserve n mv cap = .ok r)
    (hpct : reserve.config.fees.hostFeePercentage ≤ 100) :
    r.hostFee ≤ r.borrowFee ∧ natToDec r.borrowFee ≤ r.borrowAmount ∧
      (WAD ∣ r.borrowAmount → r.receiveAmount = r.borrowAmount / WAD - r.borrowFee) := by
  have hWpos : 0 < WAD := by norm_num [WAD]
  unfold calculateBorrow at hok
  split at hok
  · unfold calculateSentinelBorrow at hok
    rw [obindE_ok] at hok
    obtain ⟨v, hv, hok⟩ := hok
    rw [obindE_ok] at hok
    obtain ⟨conv, hconv, hok⟩ := hok
    rw [ebind_ok] at hok
    obtain ⟨fh, hfees, hok⟩ := hok
    obtain ⟨f, h⟩ := fh
    rw [obindE_ok] at hok
    obtain ⟨net, hnet, hok⟩ := hok
    rw [obindE_ok] at hok
    obtain ⟨receive, hfloor, hok⟩ := hok
    have hr := (Except.ok.inj hok).symm
    subst hr
    obtain ⟨hnet2, hle⟩ := trySub_some hnet
    obtain ⟨hrec, _⟩ := tryFloorU64_some hfloor
    refine ⟨calculateBorrowFees_ok_host_le hfees hpct, hle, ?_⟩
    intro hdvd
    obtain ⟨k, hk⟩ := hdvd
    have hk2 : sentinelGross reserve conv cap = WAD * k := hk
    show receive = sentinelGross reserve conv cap / WAD - f
    rw [hrec, hnet2]
    unfold natToDec
    rw [hk2, wad_mul_sub_div, Nat.mul_div_cancel_left _ hWpos]
  · unfold calculateLiteralBorrow at hok
    rw [ebind_ok] at hok
    obtain ⟨fh, hfees, hok⟩ := hok
    obtain ⟨f, h⟩ := fh
    rw [obindE_ok] at hok
    obtain ⟨gross, hadd, hok⟩ := hok
    split at hok
    · exact absurd hok (by simp)
    · rw [obindE_ok] at hok
      obtain ⟨v, hv, hok⟩ := hok
      rw [obindE_ok] at hok
      obtain ⟨bv, hbv, hok⟩ := hok
      split at hok
      · exact absurd hok (by simp)
      · have hr := (Except.ok.inj hok).symm
        subst hr
        obtain ⟨hg, _⟩ := tryAdd_some hadd
        have hsum : gross = (n + f) * WAD := by
          rw [hg]
          unfold natToDec
          ring
        refine ⟨calculateBorrowFees_ok_host_le hfees hpct, ?_, ?_⟩
        · show natToDec f ≤ gross
          unfold natToDec
          rw [hsum]
          exact Nat.mul_le_mul_right _ (Nat.le_add_left f n)
        · intro _
          show n = gross / WAD - f
          rw [hsum, Nat.mul_div_cancel _ hWpos]
          omega

/-- Structure of a successful reserve-liquidity borrow: the available amount
decreases by the floor of the gross amount (which must fit), and the borrowed
balance grows by the full gross amount. -/
theorem liquidityBorrow_ok_inv {liq liq2 : ReserveLiquidity} {g : Nat}
    (hok : liquidityBorrow liq g = .ok liq2) :
    liq2.availableAmount = liq.availableAmount - g / WAD ∧
    liq2.borrowedAmountWads = liq.borrowedAmountWads + g ∧
    g / WAD ≤ liq.availableAmount ∧
    liq2.cumulativeBorrowRateWads = liq.cumulativeBorrowRateWads ∧
    liq2.marketPrice = liq.marketPrice ∧
    liq2.mintDecimals = liq.mintDecimals := by
  unfold liquidityBorrow at hok
  rw [obindE_ok] at hok
  obtain ⟨borrowAmount, hfloor, hok⟩ := hok
  split at hok
  · exact absurd hok (by simp)
  · rw [obindE_ok] at hok
    obtain ⟨nb, hnb, hok⟩ := hok
    obtain ⟨hfa, _⟩ := tryFloorU64_some hfloor
    obtain ⟨hadd, _⟩ := tryAdd_some hnb
    have h2 := (Except.ok.inj hok).symm
    subst h2
    subst hfa hadd
    refine ⟨rfl, rfl, by omega, rfl, rfl, rfl⟩

/-! Obligation borrow-list lemmas. -/

/-- A head entry with a matching key is found immediately. -/
theorem findEntry_cons_eq {key : Nat} {e : ObligationLiquidity}
    {l : List ObligationLiquidity} (h : e.borrowReserve = key) :
    (e :: l).find? (fun x => x.borrowReserve = key) = some e := by
  simp [List.find?, h]

/-- A head entry with a different key is skipped by the entry search. -/
theorem findEntry_cons_ne {key : Nat} {e : ObligationLiquidity}
    {l : List ObligationLiquidity} (h : ¬ e.borrowReserve = key) :
    (e :: l).find? (fun x => x.borrowReserve = key) =
      l.find? (fun x => x.borrowReserve = key) := by
  simp [List.find?, h]

theorem borrowedOfList_cons_eq {key : Nat} {e : ObligationLiquidity}
    {l : List ObligationLiquidity} (h : e.borrowReserve = key) :
    borrowedOfList key (e :: l) = e.borrowedAmountWads := by
  unfold borrowedOfList
  rw [findEntry_cons_eq h]

theorem borrowedOfList_cons_ne {key : Nat} {e : ObligationLiquidity}
    {l : List ObligationLiquidity} (h : ¬ e.borrowReserve = key) :
    borrowedOfList key (e :: l) = borrowedOfList key l := by
  unfold borrowedOfList
  rw [findEntry_cons_ne h]

/-- Full case analysis of `addToBorrows`: when an entry for the key exists the
key set, order and length are unchanged and the entry's balance grows by the
gross amount; when none exists a fresh entry is appended. -/
theorem addToBorrows_spec (key cum g : Nat) (l : List ObligationLiquidity) :
    ∀ l2, addToBorrows key cum g l = .ok l2 →
      ((l.find? (fun e => e.borrowReserve = key)).isSome = true ∧
        reserveKeys l2 = reserveKeys l ∧
        l2.length = l.length ∧
        borrowedOfList key l2 = borrowedOfList key l + g) ∨
      (l.find? (fun e => e.borrowReserve = key) = none ∧
        l2 = l ++ [⟨key, cum, g, 0⟩] ∧
        reserveKeys l2 = reserveKeys l ++ [key] ∧
        borrowedOfList key l2 = g ∧
        borrowedOfList key l = 0) := by
  induction l with
  | nil =>
    intro l2 hok
    unfold addToBorrows at hok
    have h2 := (Except.ok.inj hok).symm
    subst h2
    right
    refine ⟨rfl, rfl, rfl, ?_, rfl⟩
    exact borrowedOfList_cons_eq rfl
  | cons e rest ih =>
    intro l2 hok
    unfold addToBorrows at hok
    split at hok
    · rename_i hkey
      rw [obindE_ok] at hok
      obtain ⟨nb, hnb, hok⟩ := hok
      have h2 := (Except.ok.inj hok).symm
      subst h2
      obtain ⟨hnb2, _⟩ := tryAdd_some hnb
      left
      refine ⟨?_, ?_, rfl, ?_⟩
      · rw [findEntry_cons_eq hkey]
        rfl
      · simp [reserveKeys]
      · rw [borrowedOfList_cons_eq
              (show ({ e with borrowedAmountWads := nb } : ObligationLiquidity).borrowReserve = key
               from hkey),
            borrowedOfList_cons_eq hkey]
        exact hnb2
    · rename_i hkey
      rw [ebind_ok] at hok
      obtain ⟨rest2, hrest, hok⟩ := hok
      have h2 := (Except.ok.inj hok).symm
      subst h2
      rcases ih rest2 hrest with ⟨hfind, hmap, hlen, hbor⟩ | ⟨hfind, heq, hmap, hb2, hb0⟩
      · left
        refine ⟨?_, ?_, by simp [hlen], ?_⟩
        · rw [findEntry_cons_ne hkey]
          exact hfind
        · simp only [reserveKeys, List.map_cons] at hmap ⊢
          rw [hmap]
        · rw [borrowedOfList_cons_ne hkey, borrowedOfList_cons_ne hkey]
          exact hbor
      · right
        refine ⟨?_, by rw [heq, List.cons_append], ?_, ?_, ?_⟩
        · rw [findEntry_cons_ne hkey]
          exact hfind
        · simp only [reserveKeys, List.map_cons] at hmap ⊢
          rw [hmap, List.cons_append]
        · rw [borrowedOfList_cons_ne hkey]
          exact hb2
        · rw [borrowedOfList_cons_ne hkey]
          exact hb0

/-- Inversion of a successful obligation borrow. -/
theorem obligationBorrow_ok_inv {ob : Obligation} {key cum g : Nat} {ob2 : Obligation}
    (hok : obligationBorrow ob key cum g = .ok ob2) :
    ∃ bs, addToBorrows key cum g ob.borrows = .ok bs ∧
      ob2 = { ob with borrows := bs, stale := true } := by
  unfold obligationBorrow at hok
  split at hok
  · exact absurd hok (by simp)
  · rw [ebind_ok] at hok
    obtain ⟨bs, hbs, hok⟩ := hok
    exact ⟨bs, hbs, (Except.ok.inj hok).symm⟩

/-- The key set of a repaid borrow list is a sublist of the original key
set. -/
theorem repayFromBorrows_keys_sublist (key settle : Nat) (l : List ObligationLiquidity) :
    (reserveKeys (repayFromBorrows key settle l)).Sublist (reserveKeys l) := by
  induction l with
  | nil => simp [repayFromBorrows, reserveKeys]
  | cons e rest ih =>
    unfold repayFromBorrows
    split
    · split
      · exact (List.sublist_cons_self _ _).trans (List.Sublist.refl _)
      · simp only [reserveKeys, List.map_cons]
        exact List.Sublist.cons₂ _ (List.Sublist.refl _)
    · simp only [reserveKeys, List.map_cons]
      exact List.Sublist.cons₂ _ ih

/-- Inversion of a successful borrow instruction. -/
theorem processBorrow_ok_inv {n : Nat} {res : Reserve} {ob : Obligation}
    {key : Nat} {hp : Bool} {res2 : Reserve} {ob2 : Obligation} {t : BorrowTransfers}
    (hok : processBorrowObligationLiquidity n res ob key hp = .ok (res2, ob2, t)) :
    ∃ remaining capacity r liq2,
      trySub ob.allowedBorrowValue ob.borrowedValue = some remaining ∧
      trySub (natToDec res.config.borrowLimit) res.liquidity.borrowedAmountWads = some capacity ∧
      calculateBorrow res n remaining capacity = .ok r ∧
      liquidityBorrow res.liquidity r.borrowAmount = .ok liq2 ∧
      obligationBorrow ob key res.liquidity.cumulativeBorrowRateWads r.borrowAmount = .ok ob2 ∧
      res2 = { res with liquidity := liq2, stale := true } ∧
      t = mkBorrowTransfers r hp := by
  unfold processBorrowObligationLiquidity at hok
  split at hok
  · exact absurd hok (by simp)
  · split at hok
    · exact absurd hok (by simp)
    · split at hok
      · exact absurd hok (by simp)
      · rw [obindE_ok] at hok
        obtain ⟨remaining, hrem, hok⟩ := hok
        split at hok
        · exact absurd hok (by simp)
        · rw [obindE_ok] at hok
          obtain ⟨capacity, hcap, hok⟩ := hok
          rw [ebind_ok] at hok
          obtain ⟨r, hcalc, hok⟩ := hok
          split at hok
          · exact absurd hok (by simp)
          · rw [ebind_ok] at hok
            obtain ⟨liq2, hliq, hok⟩ := hok
            rw [ebind_ok] at hok
            obtain ⟨ob2x, hob, hok⟩ := hok
            have h2 := Except.ok.inj hok
            simp only [Prod.mk.injEq] at h2
            obtain ⟨ha, hb, hc⟩ := h2
            subst ha hb hc
            exact ⟨remaining, capacity, r, liq2, hrem, hcap, hcalc, hliq, hob, rfl, rfl⟩

/-- Inversion of a successful repay instruction. -/
theorem processRepay_ok_inv {amount : Nat} {res : Reserve} {ob : Obligation}
    {key : Nat} {res2 : Reserve} {ob2 : Obligation} {repayAmount : Nat}
    (hok : processRepayObligationLiquidity amount res ob key = .ok (res2, ob2, repayAmount)) :
    ob2 = { ob with
            borrows := repayFromBorrows key
              (repaySettleAmount amount (borrowedOf ob key)) ob.borrows,
            stale := true } := by
  unfold processRepayObligationLiquidity at hok
  split at hok
  · exact absurd hok (by simp)
  · split at hok
    · exact absurd hok (by simp)
    · split at hok
      · exact absurd hok (by simp)
      · split at hok
        · exact absurd hok (by simp)
        · rw [obindE_ok] at hok
          obtain ⟨ra, hra, hok⟩ := hok
          split at hok
          · exact absurd hok (by simp)
          · rw [obindE_ok] at hok
            obtain ⟨nb, hnb, hok⟩ := hok
            have h2 := Except.ok.inj hok
            simp only [Prod.mk.injEq] at h2
            obtain ⟨ha, hb, hc⟩ := h2
            exact hb.symm

/-! Forward computation rules for the combinators. -/

theorem obindE_some_eq {α β : Type} (a : α) (e : LendingError)
    (f : α → Except LendingError β) : obindE (some a) e f = f a := rfl

theorem ebind_ok_eq {α β : Type} (a : α)
    (f : α → Except LendingError β) : ebind (.ok a) f = f a := rfl

theorem ebind_error_eq {α β : Type} (e : LendingError)
    (f : α → Except LendingError β) : ebind (.error e : Except LendingError α) f = .error e := rfl

/-! Claim theorems. -/

/-- Claim C6: every operation handler is atomic on failure: when any step of a
composed sequence of operations fails, the transaction keeps the exact
pre-transaction `MarketState` — the Reserve and Obligation structures are
unchanged and no partial state transition is visible. -/
theorem failed_sequence_discards_effects (st : MarketState) (ops : List LendingOp)
    (e : LendingError) (h : applySeq st ops = .error e) :
    runTransaction st ops = st := by
  unfold runTransaction
  rw [h]

/-- Witness for C6: the borrow of 16 units against the 15-unit borrow limit
(the failing transaction of `test_borrow_limit`) leaves the obligation's
`borrowed_value` at zero, exactly as the test asserts. -/
theorem failed_sequence_discards_effects_witness :
    applySeq testState [.borrow 16 true] = .error .InvalidAmount ∧
    runTransaction testState [.borrow 16 true] = testState ∧
    testState.obligation.borrowedValue = 0 :=
  ⟨rfl, failed_sequence_discards_effects testState [.borrow 16 true] .InvalidAmount rfl, rfl⟩

/-- Claim C10: the `ObligationStateUpdate` event record carries no public-key
field (in particular no obligation identifier), its deposit and borrow entries
reference reserves only by a `u8` positional index, and every event record
kind carries an `event_type` tag naming its variant. -/
theorem event_log_record_shapes :
    (∀ p ∈ obligationStateUpdateFields, p.2 ≠ FieldTy.pubkeyTy) ∧
    (("reserve_id_index", FieldTy.u8Ty) ∈ depositLogFields ∧
      ∀ p ∈ depositLogFields, p.2 ≠ FieldTy.pubkeyTy) ∧
    (("reserve_id_index", FieldTy.u8Ty) ∈ borrowLogFields ∧
      ∀ p ∈ borrowLogFields, p.2 ≠ FieldTy.pubkeyTy) ∧
    (∀ k : LogEventType, ("event_type", FieldTy.eventTypeTy) ∈ eventFields k) := by
  refine ⟨by decide, ⟨by decide, by decide⟩, ⟨by decide, by decide⟩, ?_⟩
  intro k
  cases k <;> decide

/-- Claim C1: a borrow request against a Fresh obligation and Fresh reserve
whose post-borrow `borrowed_value` would strictly exceed
`allowed_borrow_value` is rejected with BorrowTooLarge, and the transaction
leaves the market state unchanged.  The hypotheses pin the intermediate
computations: the fee assessment, the gross amount `g` (net plus fee), its
market value `bv`, and require the request to pass the earlier zero-amount,
staleness, borrow-limit and overflow checks. -/
theorem borrow_over_allowed_rejected
    (n : Nat) (res : Reserve) (ob : Obligation) (key : Nat) (hp : Bool)
    (remaining capacity f h g v bv : Nat)
    (hn0 : n ≠ 0) (hnmax : n ≠ U64_MAX)
    (hfr : res.stale = false) (hfo : ob.stale = false)
    (hrem : trySub ob.allowedBorrowValue ob.borrowedValue = some remaining)
    (hrem0 : remaining ≠ 0)
    (hcap : trySub (natToDec res.config.borrowLimit) res.liquidity.borrowedAmountWads = some capacity)
    (hfees : calculateBorrowFees res.config.fees (natToDec n) .exclusive = .ok (f, h))
    (hadd : tryAdd (natToDec n) (natToDec f) = some g)
    (hcapok : ¬ capacity < g)
    (hmul : tryMul g res.liquidity.marketPrice = some v)
    (hdivu : tryDivU v (10 ^ res.liquidity.mintDecimals) = some bv)
    (hover : ob.allowedBorrowValue < ob.borrowedValue + bv) :
    processBorrowObligationLiquidity n res ob key hp = .error .BorrowTooLarge ∧
    runTransaction ⟨res, ob, key⟩ [.borrow n hp] = ⟨res, ob, key⟩ := by
  obtain ⟨hremv, hble⟩ := trySub_some hrem
  have hover2 : remaining < bv := by omega
  have hlit : calculateLiteralBorrow res n remaining capacity = .error .BorrowTooLarge := by
    unfold calculateLiteralBorrow
    simp only [hfees, ebind_ok_eq, hadd, obindE_some_eq, hmul, hdivu,
      if_neg hcapok, if_pos hover2]
  have hcb : calculateBorrow res n remaining capacity = .error .BorrowTooLarge := by
    unfold calculateBorrow
    rw [if_neg hnmax, hlit]
  have hmain : processBorrowObligationLiquidity n res ob key hp = .error .BorrowTooLarge := by
    unfold processBorrowObligationLiquidity
    rw [if_neg hn0, if_neg (show ¬ res.stale = true by simp [hfr]),
        if_neg (show ¬ ob.stale = true by simp [hfo])]
    simp only [hrem, obindE_some_eq, if_neg hrem0, hcap, hcb, ebind_error_eq]
  refine ⟨hmain, ?_⟩
  unfold runTransaction applySeq applyOp
  simp only [hmain, ebind_error_eq]

/-- Witness for C1: borrowing 600000000000 micro-units against collateral
allowing only 500000 dollars of debt fails with BorrowTooLarge and leaves the
state untouched. -/
theorem borrow_over_allowed_rejected_witness :
    processBorrowObligationLiquidity 600000000000 bigReserve testObligation 2 true =
      .error .BorrowTooLarge ∧
    runTransaction ⟨bigReserve, testObligation, 2⟩ [.borrow 600000000000 true] =
      ⟨bigReserve, testObligation, 2⟩ :=
  borrow_over_allowed_rejected 600000000000 bigReserve testObligation 2 true
    (natToDec 500000) (natToDec 18446744073709551615) 60000 12000
    (natToDec 600000060000) (natToDec 600000060000) 600000060000000000000000
    (by decide) (by decide) rfl rfl rfl (by decide) rfl rfl rfl
    (by decide) rfl rfl (by decide)

/-- Claim C5: a literal borrow request whose gross amount (net plus fee) would
push the reserve's `borrowed_amount_wads` past the configured `borrow_limit`
fails with the InvalidAmount error.  The hypotheses pin the fee assessment and
the gross amount and require the request to pass the earlier zero-amount,
staleness and allowed-value checks. -/
theorem borrow_past_limit_invalid_amount
    (n : Nat) (res : Reserve) (ob : Obligation) (key : Nat) (hp : Bool)
    (remaining capacity f h g : Nat)
    (hn0 : n ≠ 0) (hnmax : n ≠ U64_MAX)
    (hfr : res.stale = false) (hfo : ob.stale = false)
    (hrem : trySub ob.allowedBorrowValue ob.borrowedValue = some remaining)
    (hrem0 : remaining ≠ 0)
    (hcap : trySub (natToDec res.config.borrowLimit) res.liquidity.borrowedAmountWads = some capacity)
    (hfees : calculateBorrowFees res.config.fees (natToDec n) .exclusive = .ok (f, h))
    (hadd : tryAdd (natToDec n) (natToDec f) = some g)
    (hover : natToDec res.config.borrowLimit < res.liquidity.borrowedAmountWads + g) :
    processBorrowObligationLiquidity n res ob key hp = .error .InvalidAmount := by
  obtain ⟨hcapv, hcle⟩ := trySub_some hcap
  have hlt : capacity < g := by omega
  have hlit : calculateLiteralBorrow res n remaining capacity = .error .InvalidAmount := by
    unfold calculateLiteralBorrow
    simp only [hfees, ebind_ok_eq, hadd, obindE_some_eq, if_pos hlt]
  have hcb : calculateBorrow res n remaining capacity = .error .InvalidAmount := by
    unfold calculateBorrow
    rw [if_neg hnmax, hlit]
  unfold processBorrowObligationLiquidity
  rw [if_neg hn0, if_neg (show ¬ res.stale = true by simp [hfr]),
      if_neg (show ¬ ob.stale = true by simp [hfo])]
  simp only [hrem, obindE_some_eq, if_neg hrem0, hcap, hcb, ebind_error_eq]

/-- Witness for C5: requesting 16 units against the 15-unit borrow limit (the
`borrow_limit + 1` request of `test_borrow_limit`; fee 2 brings the gross to
18) fails with InvalidAmount. -/
theorem borrow_past_limit_invalid_amount_witness :
    processBorrowObligationLiquidity 16 testReserve testObligation 2 true =
      .error .InvalidAmount :=
  borrow_past_limit_invalid_amount 16 testReserve testObligation 2 true
    (natToDec 500000) (natToDec 15) 2 1 (natToDec 18)
    (by decide) (by decide) rfl rfl rfl (by decide) rfl rfl rfl (by decide)

/-- Claim C9: when a borrow creates a new entry for a reserve the obligation
had not borrowed from, the entry snapshots the reserve's current cumulative
borrow rate and has zero `market_value` — the borrow handler leaves the market
value for a later obligation refresh to fill in. -/
theorem new_borrow_entry_snapshot
    (n : Nat) (res : Reserve) (ob : Obligation) (key : Nat) (hp : Bool)
    (res2 : Reserve) (ob2 : Obligation) (t : BorrowTransfers)
    (habs : hasBorrowEntry ob key = false)
    (hok : processBorrowObligationLiquidity n res ob key hp = .ok (res2, ob2, t)) :
    ∃ g, ob2.borrows = ob.borrows ++
      [{ borrowReserve := key,
         cumulativeBorrowRateWads := res.liquidity.cumulativeBorrowRateWads,
         borrowedAmountWads := g, marketValue := 0 }] := by
  obtain ⟨remaining, capacity, r, liq2, _, _, _, _, hob, _, _⟩ := processBorrow_ok_inv hok
  obtain ⟨bs, hbs, hob2⟩ := obligationBorrow_ok_inv hob
  rcases addToBorrows_spec _ _ _ _ _ hbs with ⟨hfind, _⟩ | ⟨_, heq, _⟩
  · unfold hasBorrowEntry at habs
    rw [habs] at hfind
    exact absurd hfind (by simp)
  · subst hob2
    exact ⟨r.borrowAmount, by rw [heq]⟩

/-- Witness for C9: borrowing 10 units from the never-accrued `bigReserve`
appends an entry whose rate snapshot is `WAD` (scaled 1.0) and whose market
value is zero, matching the `ObligationLiquidity` assertion of
`test_borrow_max_reserves`. -/
theorem new_borrow_entry_snapshot_witness :
    hasBorrowEntry testObligation 2 = false ∧
    bigReserve.liquidity.cumulativeBorrowRateWads = 1000000000000000000 ∧
    ∃ g, borrowedObligation.borrows = testObligation.borrows ++
      [{ borrowReserve := 2,
         cumulativeBorrowRateWads := bigReserve.liquidity.cumulativeBorrowRateWads,
         borrowedAmountWads := g, marketValue := 0 }] :=
  ⟨rfl, rfl,
   new_borrow_entry_snapshot 10 bigReserve testObligation 2 true
     borrowedReserve borrowedObligation borrowedTransfers rfl rfl⟩

/-- Claim C8: an obligation's borrows collection holds at most one entry per
reserve: the uniqueness of reserve references is preserved by every modelled
operation (borrow and repay), and borrowing again against an already-borrowed
reserve accumulates into the existing entry — the entry count is unchanged and
the matching entry grows by the gross amount — instead of creating a
duplicate. -/
theorem borrow_entries_unique_invariant :
    (∀ (st : MarketState) (op : LendingOp) (st2 : MarketState),
      (reserveKeys st.obligation.borrows).Nodup →
      applyOp st op = .ok st2 →
      (reserveKeys st2.obligation.borrows).Nodup) ∧
    (∀ (ob : Obligation) (key cum g : Nat) (ob2 : Obligation),
      hasBorrowEntry ob key = true →
      obligationBorrow ob key cum g = .ok ob2 →
      ob2.borrows.length = ob.borrows.length ∧
      borrowedOf ob2 key = borrowedOf ob key + g) := by
  constructor
  · intro st op st2 hnd hok
    cases op with
    | borrow a hp =>
      unfold applyOp at hok
      rw [ebind_ok] at hok
      obtain ⟨r, hpB, hok⟩ := hok
      obtain ⟨res2, ob2, t⟩ := r
      have hst2 : st2 = ⟨res2, ob2, st.reserveKey⟩ := (Except.ok.inj hok).symm
      subst hst2
      obtain ⟨remaining, capacity, rr, liq2, _, _, _, _, hob, _, _⟩ := processBorrow_ok_inv hpB
      obtain ⟨bs, hbs, hob2⟩ := obligationBorrow_ok_inv hob
      subst hob2
      show (reserveKeys bs).Nodup
      rcases addToBorrows_spec _ _ _ _ _ hbs with ⟨_, hmap, _, _⟩ | ⟨hfind, _, hmap, _, _⟩
      · rw [hmap]
        exact hnd
      · rw [hmap]
        refine List.Nodup.append hnd (List.nodup_singleton _) ?_
        intro x hx hxk
        simp only [List.mem_singleton] at hxk
        subst hxk
        rw [List.find?_eq_none] at hfind
        simp only [reserveKeys, List.mem_map] at hx
        obtain ⟨e, he, hek⟩ := hx
        have hne := hfind e he
        simp only [decide_eq_true_eq] at hne
        exact hne hek
    | repay a =>
      unfold applyOp at hok
      rw [ebind_ok] at hok
      obtain ⟨r, hpR, hok⟩ := hok
      obtain ⟨res2, ob2, ra⟩ := r
      have hst2 : st2 = ⟨res2, ob2, st.reserveKey⟩ := (Except.ok.inj hok).symm
      subst hst2
      have hob2 := processRepay_ok_inv hpR
      subst hob2
      exact List.Nodup.sublist (repayFromBorrows_keys_sublist _ _ _) hnd
  · intro ob key cum g ob2 hhas hok
    obtain ⟨bs, hbs, hob2⟩ := obligationBorrow_ok_inv hok
    subst hob2
    rcases addToBorrows_spec _ _ _ _ _ hbs with ⟨_, _, hlen, hbor⟩ | ⟨hfind, _, _, _, _⟩
    · exact ⟨hlen, hbor⟩
    · unfold hasBorrowEntry at hhas
      rw [hfind] at hhas
      exact absurd hhas (by simp)

/-- Witness for C8: borrowing 10 units into an obligation with no prior
borrows keeps the key set duplicate-free, and a further borrow of 3 wads
against the already-borrowed reserve of `satObligation` keeps a single entry
while its balance grows from 15 to 18 wads. -/
theorem borrow_entries_unique_invariant_witness :
    (reserveKeys borrowedObligation.borrows).Nodup ∧
    (accumulatedSatObligation.borrows.length = satObligation.borrows.length ∧
      borrowedOf accumulatedSatObligation 2 = borrowedOf satObligation 2 + natToDec 3) :=
  ⟨borrow_entries_unique_invariant.1 ⟨bigReserve, testObligation, 2⟩ (.borrow 10 true)
      ⟨borrowedReserve, borrowedObligation, 2⟩ (by decide) rfl,
   borrow_entries_unique_invariant.2 satObligation 2 WAD (natToDec 3)
      accumulatedSatObligation rfl rfl⟩

/-- Claim C2: conservation of a successful borrow.  For a successful borrow of
gross amount `g = r.borrowAmount` (an exact number `g/WAD` of liquidity units)
with total fee `f = r.borrowFee` and host share `h = r.hostFee`: `h ≤ f`, the
emitted transfers move `g/WAD − f` to the borrower, `f − h` to the protocol
fee receiver and `h` to the host fee receiver, the reserve's available
liquidity decreases by exactly `g/WAD` units, and both the reserve's
`borrowed_amount_wads` and the obligation's matching borrow entry grow by
exactly `g`. -/
theorem borrow_conservation
    (n : Nat) (res : Reserve) (ob : Obligation) (key : Nat)
    (remaining capacity : Nat) (r : CalculateBorrowResult)
    (liq2 : ReserveLiquidity) (ob2 : Obligation)
    (hn0 : n ≠ 0) (hfr : res.stale = false) (hfo : ob.stale = false)
    (hpct : res.config.fees.hostFeePercentage ≤ 100)
    (hrem : trySub ob.allowedBorrowValue ob.borrowedValue = some remaining)
    (hrem0 : remaining ≠ 0)
    (hcap : trySub (natToDec res.config.borrowLimit) res.liquidity.borrowedAmountWads = some capacity)
    (hcalc : calculateBorrow res n remaining capacity = .ok r)
    (hrecv : r.receiveAmount ≠ 0)
    (hliq : liquidityBorrow res.liquidity r.borrowAmount = .ok liq2)
    (hob : obligationBorrow ob key res.liquidity.cumulativeBorrowRateWads r.borrowAmount = .ok ob2)
    (hdvd : WAD ∣ r.borrowAmount) :
    processBorrowObligationLiquidity n res ob key true =
      .ok ({ res with liquidity := liq2, stale := true }, ob2, mkBorrowTransfers r true) ∧
    r.hostFee ≤ r.borrowFee ∧
    mkBorrowTransfers r true =
      ⟨r.borrowAmount / WAD - r.borrowFee, r.borrowFee - r.hostFee, r.hostFee⟩ ∧
    liq2.availableAmount = res.liquidity.availableAmount - r.borrowAmount / WAD ∧
    liq2.borrowedAmountWads = res.liquidity.borrowedAmountWads + r.borrowAmount ∧
    borrowedOf ob2 key = borrowedOf ob key + r.borrowAmount := by
  obtain ⟨hhle, hfw, hrc⟩ := calculateBorrow_ok_inv hcalc hpct
  have hrecv2 := hrc hdvd
  obtain ⟨ha1, ha2, _, _, _, _⟩ := liquidityBorrow_ok_inv hliq
  obtain ⟨bs, hbs, hob2⟩ := obligationBorrow_ok_inv hob
  have hmain : processBorrowObligationLiquidity n res ob key true =
      .ok ({ res with liquidity := liq2, stale := true }, ob2, mkBorrowTransfers r true) := by
    unfold processBorrowObligationLiquidity
    rw [if_neg hn0, if_neg (show ¬ res.stale = true by simp [hfr]),
        if_neg (show ¬ ob.stale = true by simp [hfo])]
    simp only [hrem, obindE_some_eq, if_neg hrem0, hcap, hcalc, ebind_ok_eq,
      if_neg hrecv, hliq, hob]
  have htr : mkBorrowTransfers r true =
      ⟨r.borrowAmount / WAD - r.borrowFee, r.borrowFee - r.hostFee, r.hostFee⟩ := by
    unfold mkBorrowTransfers
    by_cases hh0 : 0 < r.hostFee
    · rw [if_pos ⟨rfl, hh0⟩, hrecv2]
    · have h0 : r.hostFee = 0 := by omega
      rw [if_neg (by simp [h0]), hrecv2, h0]
      simp
  have hbor : borrowedOf ob2 key = borrowedOf ob key + r.borrowAmount := by
    rw [hob2]
    show borrowedOfList key bs = borrowedOf ob key + r.borrowAmount
    rcases addToBorrows_spec _ _ _ _ _ hbs with ⟨_, _, _, hb⟩ | ⟨_, _, _, hb2, hb0⟩
    · exact hb
    · unfold borrowedOf
      rw [hb2, hb0]
      omega
  exact ⟨hmain, hhle, htr, ha1, ha2, hbor⟩

/-- Witness for C2: borrowing 10 units of `bigReserve` (gross 12 wads, fee 2,
host share 1) moves 10 to the borrower, 1 to the fee receiver and 1 to the
host receiver, decreases the available liquidity by 12 and grows both borrowed
balances by 12 wads — the conservation pattern of
`test_borrow_usdc_fixed_amount`. -/
theorem borrow_conservation_witness :
    processBorrowObligationLiquidity 10 bigReserve testObligation 2 true =
      .ok (borrowedReserve, borrowedObligation, borrowedTransfers) ∧
    borrowedTransfers.netToBorrower = 12 - 2 ∧
    borrowedTransfers.ownerFeeTransfer = 2 - 1 ∧
    borrowedTransfers.hostFeeTransfer = 1 ∧
    borrowedReserve.liquidity.availableAmount = bigReserve.liquidity.availableAmount - 12 ∧
    borrowedReserve.liquidity.borrowedAmountWads =
      bigReserve.liquidity.borrowedAmountWads + natToDec 12 ∧
    borrowedOf borrowedObligation 2 = borrowedOf testObligation 2 + natToDec 12 := by
  have hmain := borrow_conservation 10 bigReserve testObligation 2
    (natToDec 500000) (natToDec 18446744073709551615) ⟨natToDec 12, 10, 2, 1⟩
    borrowedReserve.liquidity borrowedObligation
    (by decide) rfl rfl (by decide) rfl (by decide) rfl rfl (by decide) rfl rfl
    ⟨12, by rw [natToDec, Nat.mul_comm]⟩
  exact ⟨hmain.1, rfl, rfl, rfl, rfl, rfl, rfl⟩

/-- Claim C3: a `u64::MAX` sentinel borrow against an obligation whose
remaining allowed value converts exactly to `X` liquidity units borrows a
gross of exactly `X` (as a wad `Decimal`), computes the fee inclusively
(carved out of `X`, here the fee pair `(f, h)` of the inclusive calculation),
hands the borrower `X − f`, and exhausts the remaining allowed value: the
market value of the gross borrow is exactly `remaining`.  A literal (non
sentinel) request instead computes its fees with the exclusive calculation. -/
theorem sentinel_borrow_exhausts_allowed
    (res : Reserve) (ob : Obligation) (key : Nat)
    (remaining capacity X f h : Nat) (liq2 : ReserveLiquidity) (ob2 : Obligation)
    (hfr : res.stale = false) (hfo : ob.stale = false)
    (hrem : trySub ob.allowedBorrowValue ob.borrowedValue = some remaining)
    (hrem0 : remaining ≠ 0)
    (hcap : trySub (natToDec res.config.borrowLimit) res.liquidity.borrowedAmountWads
      = some capacity)
    (hprice : res.liquidity.marketPrice ≠ 0)
    (hexact : remaining * 10 ^ res.liquidity.mintDecimals = X * res.liquidity.marketPrice)
    (hb1 : remaining * 10 ^ res.liquidity.mintDecimals * WAD < U192_LIMIT)
    (hXcap : natToDec X ≤ capacity)
    (hXavail : X ≤ res.liquidity.availableAmount)
    (hX64 : X < U64_LIMIT)
    (hfees : calculateBorrowFees res.config.fees (natToDec X) .inclusive = .ok (f, h))
    (hfX : f < X)
    (hliq : liquidityBorrow res.liquidity (natToDec X) = .ok liq2)
    (hob : obligationBorrow ob key res.liquidity.cumulativeBorrowRateWads (natToDec X)
      = .ok ob2) :
    calculateBorrow res U64_MAX remaining capacity = .ok ⟨natToDec X, X - f, f, h⟩ ∧
    processBorrowObligationLiquidity U64_MAX res ob key true =
      .ok ({ res with liquidity := liq2, stale := true }, ob2,
           mkBorrowTransfers ⟨natToDec X, X - f, f, h⟩ true) ∧
    borrowValueOf res (natToDec X) = some remaining ∧
    (∀ m r', m ≠ U64_MAX → calculateBorrow res m remaining capacity = .ok r' →
      ∃ p, calculateBorrowFees res.config.fees (natToDec m) .exclusive = .ok p ∧
        r'.borrowFee = p.1 ∧ r'.hostFee = p.2) := by
  have hWpos : 0 < WAD := by norm_num [WAD]
  have hdpos : 0 < 10 ^ res.liquidity.mintDecimals :=
    pow_pos (by norm_num) _
  have hmulu : tryMulU remaining (10 ^ res.liquidity.mintDecimals)
      = some (remaining * 10 ^ res.liquidity.mintDecimals) := by
    unfold tryMulU
    rw [if_pos (lt_of_le_of_lt (Nat.le_mul_of_pos_right _ hWpos) hb1)]
  have hconvval : remaining * 10 ^ res.liquidity.mintDecimals * WAD
      / res.liquidity.marketPrice = natToDec X := by
    rw [hexact]
    show X * res.liquidity.marketPrice * WAD / res.liquidity.marketPrice = X * WAD
    rw [Nat.mul_comm X res.liquidity.marketPrice, Nat.mul_assoc]
    exact Nat.mul_div_cancel_left _ (Nat.pos_of_ne_zero hprice)
  have hconv : tryDiv (remaining * 10 ^ res.liquidity.mintDecimals)
      res.liquidity.marketPrice = some (natToDec X) := by
    unfold tryDiv
    rw [if_neg hprice, if_pos hb1, hconvval]
  have hsg : sentinelGross res (natToDec X) capacity = natToDec X := by
    unfold sentinelGross
    have hXa : natToDec X ≤ natToDec res.liquidity.availableAmount :=
      Nat.mul_le_mul_right WAD hXavail
    rw [min_eq_left hXcap, min_eq_left hXa]
  have hnet : trySub (natToDec X) (natToDec f) = some (natToDec (X - f)) := by
    unfold trySub
    rw [if_pos (show natToDec f ≤ natToDec X from
      Nat.mul_le_mul_right WAD (le_of_lt hfX))]
    exact congrArg some (Nat.sub_mul X f WAD).symm
  have hfloor : tryFloorU64 (natToDec (X - f)) = some (X - f) := by
    unfold tryFloorU64
    have hc : natToDec (X - f) / WAD = X - f := Nat.mul_div_cancel _ hWpos
    rw [hc, if_pos (by omega : X - f < U64_LIMIT)]
  have hcalc : calculateBorrow res U64_MAX remaining capacity
      = .ok ⟨natToDec X, X - f, f, h⟩ := by
    unfold calculateBorrow
    rw [if_pos rfl]
    unfold calculateSentinelBorrow
    simp only [hmulu, obindE_some_eq, hconv, hsg, hfees, ebind_ok_eq, hnet, hfloor]
  have hrecv : (⟨natToDec X, X - f, f, h⟩ : CalculateBorrowResult).receiveAmount ≠ 0 := by
    show X - f ≠ 0
    omega
  have hmain : processBorrowObligationLiquidity U64_MAX res ob key true =
      .ok ({ res with liquidity := liq2, stale := true }, ob2,
           mkBorrowTransfers ⟨natToDec X, X - f, f, h⟩ true) := by
    unfold processBorrowObligationLiquidity
    rw [if_neg (by norm_num [U64_MAX]),
        if_neg (show ¬ res.stale = true by simp [hfr]),
        if_neg (show ¬ ob.stale = true by simp [hfo])]
    simp only [hrem, obindE_some_eq, if_neg hrem0, hcap, hcalc, ebind_ok_eq,
      if_neg hrecv, hliq, hob]
  have hval : borrowValueOf res (natToDec X) = some remaining := by
    unfold borrowValueOf
    have hb2 : natToDec X * res.liquidity.marketPrice
        = remaining * 10 ^ res.liquidity.mintDecimals * WAD := by
      rw [hexact]; show X * WAD * res.liquidity.marketPrice = _; ring
    have h1 : tryMul (natToDec X) res.liquidity.marketPrice
        = some (X * res.liquidity.marketPrice) := by
      unfold tryMul
      rw [if_pos (hb2 ▸ hb1)]
      congr 1
      rw [show natToDec X * res.liquidity.marketPrice
            = WAD * (X * res.liquidity.marketPrice) from by rw [natToDec]; ring]
      exact Nat.mul_div_cancel_left _ hWpos
    rw [h1]
    show tryDivU (X * res.liquidity.marketPrice) (10 ^ res.liquidity.mintDecimals)
      = some remaining
    unfold tryDivU
    rw [if_neg (by omega : ¬ 10 ^ res.liquidity.mintDecimals = 0)]
    congr 1
    rw [← hexact]
    exact Nat.mul_div_cancel _ hdpos
  have hexcl : ∀ m r', m ≠ U64_MAX → calculateBorrow res m remaining capacity = .ok r' →
      ∃ p, calculateBorrowFees res.config.fees (natToDec m) .exclusive = .ok p ∧
        r'.borrowFee = p.1 ∧ r'.hostFee = p.2 := by
    intro m r' hm hok
    unfold calculateBorrow at hok
    rw [if_neg hm] at hok
    unfold calculateLiteralBorrow at hok
    rw [ebind_ok] at hok
    obtain ⟨fh, hfh, hok⟩ := hok
    rw [obindE_ok] at hok
    obtain ⟨g, _, hok⟩ := hok
    split at hok
    · exact absurd hok (by simp)
    · rw [obindE_ok] at hok
      obtain ⟨v, _, hok⟩ := hok
      rw [obindE_ok] at hok
      obtain ⟨bv, _, hok⟩ := hok
      split at hok
      · exact absurd hok (by simp)
      · have := Except.ok.inj hok
        exact ⟨fh, hfh, by rw [← this], by rw [← this]⟩
  exact ⟨hcalc, hmain, hval, hexcl⟩

/-- Witness for C3: the sentinel borrow of all of `testObligation`'s 500000
dollars of remaining allowed value against `bigReserve` (one-dollar price, six
decimals: exactly 500000000000 base units) borrows a gross of exactly
500000000000 units, carves out the inclusive fee 50000 (host share 10000),
and the gross amount's market value is exactly the whole remaining value. -/
theorem sentinel_borrow_exhausts_allowed_witness :
    calculateBorrow bigReserve U64_MAX (natToDec 500000) (natToDec 18446744073709551615)
      = .ok ⟨natToDec 500000000000, 500000000000 - 50000, 50000, 10000⟩ ∧
    processBorrowObligationLiquidity U64_MAX bigReserve testObligation 2 true =
      .ok ({ bigReserve with liquidity := sentinelLiquidity, stale := true },
           sentinelObligation,
           mkBorrowTransfers ⟨natToDec 500000000000, 500000000000 - 50000, 50000, 10000⟩ true) ∧
    borrowValueOf bigReserve (natToDec 500000000000) = some (natToDec 500000) := by
  have hm := sentinel_borrow_exhausts_allowed bigReserve testObligation 2
    (natToDec 500000) (natToDec 18446744073709551615) 500000000000 50000 10000
    sentinelLiquidity sentinelObligation
    rfl rfl rfl (by decide) rfl (by decide) (by decide) (by decide) (by decide)
    (by decide) (by decide) rfl (by decide) rfl rfl
  exact ⟨hm.1, hm.2.1, hm.2.2.1⟩

/-- A ceiling-to-`u64` of a wad `Decimal` strictly below `n` wads is at most
`n`. -/
theorem ceil_div_le {x n : Nat} (hx : x < natToDec n) : (x + (WAD - 1)) / WAD ≤ n := by
  have hx' : x < n * WAD := hx
  have hw : WAD = 1000000000000000000 := rfl
  have h2 : x + (WAD - 1) < (n + 1) * WAD := by
    rw [hw] at hx' ⊢
    omega
  have h3 : (x + (WAD - 1)) / WAD < n + 1 :=
    (Nat.div_lt_iff_lt_mul (by norm_num [WAD])).mpr h2
  omega

/-- `tryCeilU64` succeeds on any wad `Decimal` strictly below a representable
number of wads. -/
theorem tryCeilU64_of_lt {x n : Nat} (hx : x < natToDec n) (hn : n < U64_LIMIT) :
    tryCeilU64 x = some ((x + (WAD - 1)) / WAD) := by
  unfold tryCeilU64
  rw [if_pos (lt_of_le_of_lt (ceil_div_le hx) hn)]

/-- The host-fee computation never fails on a fee `Decimal` strictly below a
representable number of wads (host percentage within `[0, 100]`). -/
theorem hostFeeCeil_total (fees : ReserveFees) (feeDec n : Nat)
    (hpct : fees.hostFeePercentage ≤ 100) (hlt : feeDec < natToDec n)
    (hn : n < U64_LIMIT) :
    ∃ hf, hostFeeCeil fees feeDec = .ok hf := by
  unfold hostFeeCeil
  by_cases hp0 : 0 < fees.hostFeePercentage
  · have hWpos : 0 < WAD := by norm_num [WAD]
    have hscale : fees.hostFeePercentage * PCT_SCALE ≤ WAD := by
      have h1 : fees.hostFeePercentage * PCT_SCALE ≤ 100 * PCT_SCALE :=
        Nat.mul_le_mul_right _ hpct
      have h100 : 100 * PCT_SCALE = WAD := by norm_num [PCT_SCALE, WAD]
      omega
    have hfn : feeDec ≤ natToDec (U64_LIMIT - 1) := by
      have h2 : natToDec n ≤ natToDec (U64_LIMIT - 1) :=
        Nat.mul_le_mul_right WAD (by omega)
      omega
    have hb2 : feeDec * (fees.hostFeePercentage * PCT_SCALE) < U192_LIMIT := by
      have h3 : feeDec * (fees.hostFeePercentage * PCT_SCALE)
          ≤ natToDec (U64_LIMIT - 1) * WAD := Nat.mul_le_mul hfn hscale
      have h4 : natToDec (U64_LIMIT - 1) * WAD < U192_LIMIT := by
        norm_num [natToDec, WAD, U64_LIMIT, U192_LIMIT]
      omega
    have hmul2 : tryMul feeDec (fees.hostFeePercentage * PCT_SCALE)
        = some (feeDec * (fees.hostFeePercentage * PCT_SCALE) / WAD) := by
      unfold tryMul
      rw [if_pos hb2]
    have hhd : feeDec * (fees.hostFeePercentage * PCT_SCALE) / WAD < natToDec n := by
      have h5 : feeDec * (fees.hostFeePercentage * PCT_SCALE) ≤ feeDec * WAD :=
        Nat.mul_le_mul_left _ hscale
      have h6 : feeDec * (fees.hostFeePercentage * PCT_SCALE) / WAD ≤ feeDec * WAD / WAD :=
        Nat.div_le_div_right h5
      have h7 : feeDec * WAD / WAD = feeDec := Nat.mul_div_cancel _ hWpos
      omega
    have hceil2 := tryCeilU64_of_lt hhd hn
    refine ⟨max ((feeDec * (fees.hostFeePercentage * PCT_SCALE) / WAD + (WAD - 1)) / WAD) 1, ?_⟩
    rw [if_pos hp0]
    rw [hmul2, obindE_some_eq, hceil2, obindE_some_eq]
  · rw [if_neg hp0]
    exact ⟨0, rfl⟩

/-- On a representable amount with a representable fee rate, the exclusive fee
calculation either succeeds with a total fee of at most the amount itself, or
fails with BorrowTooSmall (the fee would consume the whole amount). -/
theorem calculateBorrowFees_exclusive_total (fees : ReserveFees) (n : Nat)
    (hn : n < U64_LIMIT) (hrate : fees.borrowFeeWad < U64_LIMIT)
    (hpct : fees.hostFeePercentage ≤ 100) :
    (∃ p, calculateBorrowFees fees (natToDec n) .exclusive = .ok p ∧ p.1 ≤ n) ∨
    calculateBorrowFees fees (natToDec n) .exclusive = .error .BorrowTooSmall := by
  by_cases h0 : fees.borrowFeeWad = 0 ∨ natToDec n = 0
  · left
    refine ⟨(0, 0), ?_, Nat.zero_le n⟩
    unfold calculateBorrowFees
    rw [if_pos h0]
  · have hWpos : 0 < WAD := by norm_num [WAD]
    have hbound : natToDec n * fees.borrowFeeWad < U192_LIMIT := by
      have h1 : natToDec n * fees.borrowFeeWad
          ≤ natToDec (U64_LIMIT - 1) * (U64_LIMIT - 1) :=
        Nat.mul_le_mul (Nat.mul_le_mul_right WAD (by omega)) (by omega)
      have h2 : natToDec (U64_LIMIT - 1) * (U64_LIMIT - 1) < U192_LIMIT := by
        norm_num [natToDec, WAD, U64_LIMIT, U192_LIMIT]
      omega
    have hraw : rawBorrowFee fees (natToDec n) .exclusive
        = some (natToDec n * fees.borrowFeeWad / WAD) := by
      show tryMul (natToDec n) fees.borrowFeeWad = _
      unfold tryMul
      rw [if_pos hbound]
    have heq : calculateBorrowFees fees (natToDec n) .exclusive
        = (if natToDec n ≤ borrowFeeDec fees (natToDec n * fees.borrowFeeWad / WAD) then
            .error .BorrowTooSmall
          else
            obindE (tryCeilU64 (borrowFeeDec fees (natToDec n * fees.borrowFeeWad / WAD)))
                .MathOverflow fun borrowFee =>
              ebind (hostFeeCeil fees (borrowFeeDec fees (natToDec n * fees.borrowFeeWad / WAD)))
                fun hostFee => .ok (borrowFee, hostFee)) := by
      unfold calculateBorrowFees
      rw [if_neg h0]
      simp only [hraw, obindE_some_eq]
    by_cases hbig : natToDec n ≤ borrowFeeDec fees (natToDec n * fees.borrowFeeWad / WAD)
    · right
      rw [heq, if_pos hbig]
    · left
      have hlt : borrowFeeDec fees (natToDec n * fees.borrowFeeWad / WAD) < natToDec n :=
        Nat.lt_of_not_le hbig
      have hceil := tryCeilU64_of_lt hlt hn
      obtain ⟨hf, hhost⟩ := hostFeeCeil_total fees _ n hpct hlt hn
      refine ⟨((borrowFeeDec fees (natToDec n * fees.borrowFeeWad / WAD) + (WAD - 1)) / WAD, hf),
        ?_, ceil_div_le hlt⟩
      rw [heq, if_neg hbig]
      simp only [hceil, obindE_some_eq, hhost, ebind_ok_eq]

/-- Counterexample to C4 as frozen: once `borrowed_amount_wads` equals the
borrow limit, a literal borrow request (here, 3 units against the saturated
15-unit reserve of `test_borrow_limit`) fails with InvalidAmount — the
capacity check fires before any net-amount check — not with BorrowTooSmall. -/
theorem borrow_limit_cap_counterexample :
    processBorrowObligationLiquidity 3 satReserve satObligation 2 true =
      .error .InvalidAmount ∧
    LendingError.InvalidAmount ≠ LendingError.BorrowTooSmall :=
  ⟨rfl, by decide⟩

/-- Claim C4 (amended): with borrowed amount below the limit, a sentinel
borrow whose conversion exceeds the remaining capacity succeeds and leaves
`borrowed_amount_wads` at exactly the borrow limit.  Once
`borrowed_amount_wads` equals the limit, a sentinel request fails with
BorrowTooSmall (the zero capacity forces a zero net amount), while a literal
request of any size fails with InvalidAmount — or with BorrowTooSmall when
the fee calculation already consumes the whole requested amount. -/
theorem borrow_limit_cap_behaviour :
    (∀ (res : Reserve) (ob : Obligation) (key : Nat) (hp : Bool)
        (remaining capacity m conv f h net recv : Nat)
        (liq2 : ReserveLiquidity) (ob2 : Obligation),
      res.stale = false → ob.stale = false →
      trySub ob.allowedBorrowValue ob.borrowedValue = some remaining →
      remaining ≠ 0 →
      trySub (natToDec res.config.borrowLimit) res.liquidity.borrowedAmountWads
        = some capacity →
      tryMulU remaining (10 ^ res.liquidity.mintDecimals) = some m →
      tryDiv m res.liquidity.marketPrice = some conv →
      capacity ≤ conv →
      capacity ≤ natToDec res.liquidity.availableAmount →
      calculateBorrowFees res.config.fees capacity .inclusive = .ok (f, h) →
      trySub capacity (natToDec f) = some net →
      tryFloorU64 net = some recv →
      recv ≠ 0 →
      liquidityBorrow res.liquidity capacity = .ok liq2 →
      obligationBorrow ob key res.liquidity.cumulativeBorrowRateWads capacity = .ok ob2 →
      processBorrowObligationLiquidity U64_MAX res ob key hp =
        .ok ({ res with liquidity := liq2, stale := true }, ob2,
             mkBorrowTransfers ⟨capacity, recv, f, h⟩ hp) ∧
      liq2.borrowedAmountWads = natToDec res.config.borrowLimit) ∧
    (∀ (res : Reserve) (ob : Obligation) (key : Nat) (hp : Bool) (remaining m conv : Nat),
      res.stale = false → ob.stale = false →
      trySub ob.allowedBorrowValue ob.borrowedValue = some remaining →
      remaining ≠ 0 →
      res.liquidity.borrowedAmountWads = natToDec res.config.borrowLimit →
      tryMulU remaining (10 ^ res.liquidity.mintDecimals) = some m →
      tryDiv m res.liquidity.marketPrice = some conv →
      processBorrowObligationLiquidity U64_MAX res ob key hp = .error .BorrowTooSmall) ∧
    (∀ (res : Reserve) (ob : Obligation) (key : Nat) (hp : Bool) (n remaining : Nat),
      n ≠ 0 → n ≠ U64_MAX → n < U64_LIMIT →
      res.config.fees.borrowFeeWad < U64_LIMIT →
      res.config.fees.hostFeePercentage ≤ 100 →
      res.stale = false → ob.stale = false →
      trySub ob.allowedBorrowValue ob.borrowedValue = some remaining →
      remaining ≠ 0 →
      res.liquidity.borrowedAmountWads = natToDec res.config.borrowLimit →
      processBorrowObligationLiquidity n res ob key hp = .error .InvalidAmount ∨
      processBorrowObligationLiquidity n res ob key hp = .error .BorrowTooSmall) := by
  refine ⟨?_, ?_, ?_⟩
  · intro res ob key hp remaining capacity m conv f h net recv liq2 ob2
      hfr hfo hrem hrem0 hcap hmulu hconv hcc hca hfees hnet hfloor hrecv0 hliq hob
    obtain ⟨hcapv, hcle⟩ := trySub_some hcap
    have hsg : sentinelGross res conv capacity = capacity := by
      unfold sentinelGross
      rw [min_eq_right hcc, min_eq_left hca]
    have hsent : calculateSentinelBorrow res remaining capacity = .ok ⟨capacity, recv, f, h⟩ := by
      unfold calculateSentinelBorrow
      simp only [hmulu, obindE_some_eq, hconv, hsg, hfees, ebind_ok_eq, hnet, hfloor]
    have hcb : calculateBorrow res U64_MAX remaining capacity = .ok ⟨capacity, recv, f, h⟩ := by
      unfold calculateBorrow
      rw [if_pos rfl, hsent]
    have hrcv : (⟨capacity, recv, f, h⟩ : CalculateBorrowResult).receiveAmount ≠ 0 := hrecv0
    constructor
    · unfold processBorrowObligationLiquidity
      rw [if_neg (by norm_num [U64_MAX]), if_neg (show ¬ res.stale = true by simp [hfr]),
          if_neg (show ¬ ob.stale = true by simp [hfo])]
      simp only [hrem, obindE_some_eq, if_neg hrem0, hcap, hcb, ebind_ok_eq,
        if_neg hrcv, hliq, hob]
    · obtain ⟨_, ha2, _, _, _, _⟩ := liquidityBorrow_ok_inv hliq
      omega
  · intro res ob key hp remaining m conv hfr hfo hrem hrem0 hsat hmulu hconv
    have hcap : trySub (natToDec res.config.borrowLimit) res.liquidity.borrowedAmountWads
        = some 0 := by
      unfold trySub
      rw [hsat, if_pos (le_refl _), Nat.sub_self]
    have hsg : sentinelGross res conv 0 = 0 := by
      unfold sentinelGross
      omega
    have hfees0 : calculateBorrowFees res.config.fees 0 .inclusive = .ok (0, 0) := by
      unfold calculateBorrowFees
      rw [if_pos (Or.inr rfl)]
    have hsub0 : trySub 0 (natToDec 0) = some 0 := rfl
    have hfl0 : tryFloorU64 0 = some 0 := rfl
    have hsent : calculateSentinelBorrow res remaining 0 = .ok ⟨0, 0, 0, 0⟩ := by
      unfold calculateSentinelBorrow
      simp only [hmulu, obindE_some_eq, hconv, hsg, hfees0, ebind_ok_eq, hsub0, hfl0]
    have hcb : calculateBorrow res U64_MAX remaining 0 = .ok ⟨0, 0, 0, 0⟩ := by
      unfold calculateBorrow
      rw [if_pos rfl, hsent]
    unfold processBorrowObligationLiquidity
    rw [if_neg (by norm_num [U64_MAX]), if_neg (show ¬ res.stale = true by simp [hfr]),
        if_neg (show ¬ ob.stale = true by simp [hfo])]
    simp only [hrem, obindE_some_eq, if_neg hrem0, hcap, hcb, ebind_ok_eq]
    rfl
  · intro res ob key hp n remaining hn0 hnmax hn64 hrate hpct hfr hfo hrem hrem0 hsat
    have hWpos : 0 < WAD := by norm_num [WAD]
    have hcap : trySub (natToDec res.config.borrowLimit) res.liquidity.borrowedAmountWads
        = some 0 := by
      unfold trySub
      rw [hsat, if_pos (le_refl _), Nat.sub_self]
    rcases calculateBorrowFees_exclusive_total res.config.fees n hn64 hrate hpct with
      ⟨p, hfv, hple⟩ | herr
    · left
      have ha1 : natToDec n ≤ natToDec (U64_LIMIT - 1) := Nat.mul_le_mul_right WAD (by omega)
      have ha2 : natToDec p.1 ≤ natToDec (U64_LIMIT - 1) := Nat.mul_le_mul_right WAD (by omega)
      have ha3 : natToDec (U64_LIMIT - 1) + natToDec (U64_LIMIT - 1) < U192_LIMIT := by
        norm_num [natToDec, WAD, U64_LIMIT, U192_LIMIT]
      have hadd : tryAdd (natToDec n) (natToDec p.1) = some (natToDec n + natToDec p.1) := by
        unfold tryAdd
        rw [if_pos (by omega)]
      have hpos : 0 < natToDec n + natToDec p.1 := by
        have h8 : 0 < natToDec n := Nat.mul_pos (Nat.pos_of_ne_zero hn0) hWpos
        omega
      have hlit : calculateLiteralBorrow res n remaining 0 = .error .InvalidAmount := by
        unfold calculateLiteralBorrow
        simp only [hfv, ebind_ok_eq, hadd, obindE_some_eq, if_pos hpos]
      have hcb : calculateBorrow res n remaining 0 = .error .InvalidAmount := by
        unfold calculateBorrow
        rw [if_neg hnmax, hlit]
      unfold processBorrowObligationLiquidity
      rw [if_neg hn0, if_neg (show ¬ res.stale = true by simp [hfr]),
          if_neg (show ¬ ob.stale = true by simp [hfo])]
      simp only [hrem, obindE_some_eq, if_neg hrem0, hcap, hcb, ebind_error_eq]
    · right
      have hlit : calculateLiteralBorrow res n remaining 0 = .error .BorrowTooSmall := by
        unfold calculateLiteralBorrow
        rw [herr, ebind_error_eq]
      have hcb : calculateBorrow res n remaining 0 = .error .BorrowTooSmall := by
        unfold calculateBorrow
        rw [if_neg hnmax, hlit]
      unfold processBorrowObligationLiquidity
      rw [if_neg hn0, if_neg (show ¬ res.stale = true by simp [hfr]),
          if_neg (show ¬ ob.stale = true by simp [hfo])]
      simp only [hrem, obindE_some_eq, if_neg hrem0, hcap, hcb, ebind_error_eq]

/-- Witness for C4: the `test_borrow_limit` scenario.  The sentinel borrow
against the 15-unit-limit `testReserve` succeeds, caps `borrowed_amount_wads`
at 15 wads (net 13 after the minimum fee 2), the sentinel retry against the
saturated reserve fails with BorrowTooSmall, and a literal request of 3 fails
with InvalidAmount (or BorrowTooSmall). -/
theorem borrow_limit_cap_behaviour_witness :
    (processBorrowObligationLiquidity U64_MAX testReserve testObligation 2 true =
        .ok ({ testReserve with liquidity := satReserve.liquidity, stale := true },
             cappedObligation, mkBorrowTransfers ⟨natToDec 15, 13, 2, 1⟩ true) ∧
      satReserve.liquidity.borrowedAmountWads = natToDec testReserve.config.borrowLimit) ∧
    processBorrowObligationLiquidity U64_MAX satReserve satObligation 2 true =
      .error .BorrowTooSmall ∧
    (processBorrowObligationLiquidity 3 satReserve satObligation 2 true =
        .error .InvalidAmount ∨
      processBorrowObligationLiquidity 3 satReserve satObligation 2 true =
        .error .BorrowTooSmall) := by
  refine ⟨?_, ?_, ?_⟩
  · exact borrow_limit_cap_behaviour.1 testReserve testObligation 2 true
      (natToDec 500000) (natToDec 15) (natToDec 500000 * 10 ^ 6) (natToDec 500000000000)
      2 1 (natToDec 13) 13 satReserve.liquidity cappedObligation
      rfl rfl rfl (by decide) rfl rfl rfl (by decide) (by decide) rfl rfl rfl
      (by decide) rfl rfl
  · exact borrow_limit_cap_behaviour.2.1 satReserve satObligation 2 true
      (natToDec 500000 - 15000000000000) ((natToDec 500000 - 15000000000000) * 10 ^ 6)
      ((natToDec 500000 - 15000000000000) * 10 ^ 6)
      rfl rfl rfl (by decide) rfl rfl (by decide)
  · exact borrow_limit_cap_behaviour.2.2 satReserve satObligation 2 true 3
      (natToDec 500000 - 15000000000000)
      (by decide) (by decide) (by decide) (by decide) (by decide) rfl rfl rfl (by decide) rfl

theorem obind_some_eq {α β : Type} (a : α) (f : α → Option β) :
    (some a).bind f = f a := rfl

theorem obind_none_eq {α β : Type} (f : α → Option β) :
    (none : Option α).bind f = none := rfl

/-- The `(a / b) * b` round trip of the checked wad arithmetic loses at most
the number of whole wads of `b`, rounded up (each of the two truncating
rescalings loses strictly less than one unit of its divisor). -/
theorem div_mul_roundtrip {a b q m : Nat}
    (h1 : tryDiv a b = some q) (h2 : tryMul q b = some m) :
    m ≤ a ∧ a - m ≤ (b + (WAD - 1)) / WAD := by
  obtain ⟨hq, hb0, _⟩ := tryDiv_some h1
  obtain ⟨hm, _⟩ := tryMul_some h2
  have hW : 0 < WAD := by norm_num [WAD]
  have hbpos : 0 < b := Nat.pos_of_ne_zero hb0
  have step1 : q * b ≤ a * WAD := by
    rw [hq]
    exact Nat.div_mul_le_self _ _
  have t1 : m * WAD ≤ q * b := by
    rw [hm]
    exact Nat.div_mul_le_self _ _
  have hma : m ≤ a := Nat.le_of_mul_le_mul_right (le_trans t1 step1) hW
  refine ⟨hma, ?_⟩
  have t3 : a * WAD < q * b + b := by
    have d2 := Nat.mod_lt (a * WAD) hbpos
    calc a * WAD = b * (a * WAD / b) + a * WAD % b := (Nat.div_add_mod _ _).symm
      _ < b * (a * WAD / b) + b := Nat.add_lt_add_left d2 _
      _ = q * b + b := by rw [hq, Nat.mul_comm]
  have t4 : q * b < m * WAD + WAD := by
    have d4 := Nat.mod_lt (q * b) hW
    calc q * b = WAD * (q * b / WAD) + q * b % WAD := (Nat.div_add_mod _ _).symm
      _ < WAD * (q * b / WAD) + WAD := Nat.add_lt_add_left d4 _
      _ = m * WAD + WAD := by rw [hm, Nat.mul_comm]
  have t5 : a * WAD < m * WAD + WAD + b :=
    lt_trans t3 (Nat.add_lt_add_right t4 b)
  have hgoal : (a - m) * WAD ≤ b + (WAD - 1) := by
    rw [Nat.sub_mul]
    revert t5
    generalize a * WAD = A
    generalize m * WAD = M
    intro t5
    have hw : WAD = 1000000000000000000 := rfl
    rw [hw] at t5 ⊢
    omega
  exact (Nat.le_div_iff_mul_le hW).mpr hgoal

/-- Soundness and completeness of the checked fixed-point power: a successful
`tryPow` returns exactly the ideal repeated-squaring value, and `tryPow` fails
precisely when some intermediate product of the repeated squaring leaves the
192-bit backing width. -/
theorem tryPow_spec : ∀ (e b : Nat),
    (∀ v, tryPow b e = some v → v = powRaw b e) ∧
    (tryPow b e = none ↔ powOverflows b e = true) := by
  intro e
  induction e using Nat.strong_induction_on with
  | _ e ih =>
    intro b
    by_cases h0 : e = 0
    · subst h0
      constructor
      · intro v hv
        unfold tryPow at hv
        rw [if_pos rfl] at hv
        unfold powRaw
        rw [if_pos rfl]
        exact (Option.some.inj hv).symm
      · constructor
        · intro hc
          unfold tryPow at hc
          rw [if_pos rfl] at hc
          exact absurd hc (by simp)
        · intro hc
          unfold powOverflows at hc
          rw [if_pos rfl] at hc
          exact absurd hc (by simp)
    · by_cases h1 : e = 1
      · subst h1
        constructor
        · intro v hv
          unfold tryPow at hv
          rw [if_neg h0, if_pos rfl] at hv
          unfold powRaw
          rw [if_neg h0, if_pos rfl]
          exact (Option.some.inj hv).symm
        · constructor
          · intro hc
            unfold tryPow at hc
            rw [if_neg h0, if_pos rfl] at hc
            exact absurd hc (by simp)
          · intro hc
            unfold powOverflows at hc
            rw [if_neg h0, if_pos rfl] at hc
            exact absurd hc (by simp)
      · have he2 : e / 2 < e := by omega
        have hT : tryPow b e = (tryMul b b).bind fun sq =>
            (tryPow sq (e / 2)).bind fun rest =>
              if e % 2 = 1 then tryMul rest b else some rest := by
          conv_lhs => rw [tryPow.eq_def]
          rw [if_neg h0, if_neg h1]
        have hR : powRaw b e = (if e % 2 = 1 then powRaw (b * b / WAD) (e / 2) * b / WAD
            else powRaw (b * b / WAD) (e / 2)) := by
          conv_lhs => rw [powRaw.eq_def]
          rw [if_neg h0, if_neg h1]
        have hO : powOverflows b e = (decide (U192_LIMIT ≤ b * b) ||
            (powOverflows (b * b / WAD) (e / 2) ||
              (decide (e % 2 = 1) && decide (U192_LIMIT ≤ powRaw (b * b / WAD) (e / 2) * b)))) := by
          conv_lhs => rw [powOverflows.eq_def]
          rw [if_neg h0, if_neg h1]
        by_cases hbb : b * b < U192_LIMIT
        · have hmm2 : tryMul b b = some (b * b / WAD) := by
            unfold tryMul
            rw [if_pos hbb]
          have hT2 : tryPow b e = (tryPow (b * b / WAD) (e / 2)).bind fun rest =>
              if e % 2 = 1 then tryMul rest b else some rest := by
            rw [hT, hmm2, obind_some_eq]
          by_cases hrn : tryPow (b * b / WAD) (e / 2) = none
          · have hTe : tryPow b e = none := by rw [hT2, hrn, obind_none_eq]
            have hov : powOverflows (b * b / WAD) (e / 2) = true :=
              (ih _ he2 _).2.mp hrn
            have hOe : powOverflows b e = true := by
              rw [hO, hov]
              simp
            constructor
            · intro v hv
              rw [hTe] at hv
              exact absurd hv (by simp)
            · rw [hTe, hOe]
              simp
          · obtain ⟨rest, hrest⟩ := Option.ne_none_iff_exists'.mp hrn
            have hrv : rest = powRaw (b * b / WAD) (e / 2) := (ih _ he2 _).1 rest hrest
            have hovf : powOverflows (b * b / WAD) (e / 2) = false := by
              cases hb2 : powOverflows (b * b / WAD) (e / 2)
              · rfl
              · exact absurd ((ih _ he2 _).2.mpr hb2) hrn
            have hT3 : tryPow b e = if e % 2 = 1 then tryMul rest b else some rest := by
              rw [hT2, hrest, obind_some_eq]
            by_cases hodd : e % 2 = 1
            · have hT4 : tryPow b e = tryMul rest b := by rw [hT3, if_pos hodd]
              have hRe : powRaw b e = powRaw (b * b / WAD) (e / 2) * b / WAD := by
                rw [hR, if_pos hodd]
              by_cases hfin : rest * b < U192_LIMIT
              · have hmm3 : tryMul rest b = some (rest * b / WAD) := by
                  unfold tryMul
                  rw [if_pos hfin]
                have hTe : tryPow b e = some (rest * b / WAD) := by rw [hT4, hmm3]
                constructor
                · intro v hv
                  rw [hTe] at hv
                  rw [← Option.some.inj hv, hRe, hrv]
                · rw [hTe, hO, hovf]
                  have hnle1 : ¬ U192_LIMIT ≤ b * b := Nat.not_le.mpr hbb
                  have hnle2 : ¬ U192_LIMIT ≤ powRaw (b * b / WAD) (e / 2) * b := by
                    rw [← hrv]
                    exact Nat.not_le.mpr hfin
                  simp [hnle1, hnle2]
              · have hmm3 : tryMul rest b = none := by
                  unfold tryMul
                  rw [if_neg hfin]
                have hTe : tryPow b e = none := by rw [hT4, hmm3]
                have hle : U192_LIMIT ≤ powRaw (b * b / WAD) (e / 2) * b := by
                  rw [← hrv]
                  exact Nat.not_lt.mp hfin
                constructor
                · intro v hv
                  rw [hTe] at hv
                  exact absurd hv (by simp)
                · rw [hTe, hO, hovf]
                  simp [hodd, hle]
            · have hT4 : tryPow b e = some rest := by rw [hT3, if_neg hodd]
              have hRe : powRaw b e = powRaw (b * b / WAD) (e / 2) := by
                rw [hR, if_neg hodd]
              constructor
              · intro v hv
                rw [hT4] at hv
                rw [← Option.some.inj hv, hRe, hrv]
              · rw [hT4, hO, hovf]
                have hnle1 : ¬ U192_LIMIT ≤ b * b := Nat.not_le.mpr hbb
                simp [hnle1, hodd]
        · have hmm2 : tryMul b b = none := by
            unfold tryMul
            rw [if_neg hbb]
          have hTe : tryPow b e = none := by rw [hT, hmm2, obind_none_eq]
          have hle : U192_LIMIT ≤ b * b := Nat.not_lt.mp hbb
          have hOe : powOverflows b e = true := by
            rw [hO]
            simp [hle]
          constructor
          · intro v hv
            rw [hTe] at hv
            exact absurd hv (by simp)
          · rw [hTe, hOe]
            simp

/-- Counterexample to C7 as frozen: dividing 2.0 by 3.0 and multiplying back
by 3.0 yields 1.999999999999999998 — the round trip differs from the original
by 2 smallest representable units, not at most one. -/
theorem decimal_roundtrip_counterexample :
    tryDiv (natToDec 2) (natToDec 3) = some 666666666666666666 ∧
    tryMul 666666666666666666 (natToDec 3) = some (natToDec 2 - 2) ∧
    ¬ (natToDec 2 - (natToDec 2 - 2) ≤ 1) :=
  ⟨rfl, rfl, by decide⟩

/-- Claim C7 (amended): the `(a / b) * b` round trip never exceeds `a` and
falls short by at most `⌈b⌉` (the number of whole wads of the divisor, rounded
up) smallest representable units — up to one unit per truncating rescaling —
and every checked operation (add, sub, mul, div, pow) whose exact result
cannot be represented fails rather than wrapping or saturating: each returns
`none` (surfaced as MathOverflow by all callers) exactly outside its
representable range, and on success returns the exact (truncated) value. -/
theorem decimal_roundtrip_and_checked_ops :
    (∀ a b q m, tryDiv a b = some q → tryMul q b = some m →
      m ≤ a ∧ a - m ≤ (b + (WAD - 1)) / WAD) ∧
    (∀ a b, (U192_LIMIT ≤ a + b → tryAdd a b = none) ∧
      ∀ v, tryAdd a b = some v → v = a + b) ∧
    (∀ a b, (a < b → trySub a b = none) ∧ ∀ v, trySub a b = some v → v = a - b) ∧
    (∀ a b, (U192_LIMIT ≤ a * b → tryMul a b = none) ∧
      ∀ v, tryMul a b = some v → v = a * b / WAD) ∧
    (∀ a b, (b = 0 → tryDiv a b = none) ∧ (U192_LIMIT ≤ a * WAD → tryDiv a b = none) ∧
      ∀ v, tryDiv a b = some v → v = a * WAD / b) ∧
    (∀ b e, (∀ v, tryPow b e = some v → v = powRaw b e) ∧
      (tryPow b e = none ↔ powOverflows b e = true)) := by
  refine ⟨?_, ?_, ?_, ?_, ?_, ?_⟩
  · intro a b q m h1 h2
    exact div_mul_roundtrip h1 h2
  · intro a b
    constructor
    · intro hge
      unfold tryAdd
      rw [if_neg (Nat.not_lt.mpr hge)]
    · intro v hv
      exact (tryAdd_some hv).1
  · intro a b
    constructor
    · intro hlt
      unfold trySub
      rw [if_neg (Nat.not_le.mpr hlt)]
    · intro v hv
      exact (trySub_some hv).1
  · intro a b
    constructor
    · intro hge
      unfold tryMul
      rw [if_neg (Nat.not_lt.mpr hge)]
    · intro v hv
      exact (tryMul_some hv).1
  · intro a b
    refine ⟨?_, ?_, ?_⟩
    · intro hb0
      unfold tryDiv
      rw [if_pos hb0]
    · intro hge
      unfold tryDiv
      by_cases hb0 : b = 0
      · rw [if_pos hb0]
      · rw [if_neg hb0, if_neg (Nat.not_lt.mpr hge)]
    · intro v hv
      exact (tryDiv_some hv).1
  · intro b e
    exact tryPow_spec e b

/-- Witness for C7: the roundtrip `(2.0 / 3.0) * 3.0 = 1.999999999999999998`
stays below 2.0 within the amended bound `⌈3.0⌉ = 3` units; each checked
operation fails on a concrete out-of-range input; `tryPow` at exponent 1
returns its base exactly. -/
theorem decimal_roundtrip_and_checked_ops_witness :
    (natToDec 2 - 2 ≤ natToDec 2 ∧
      natToDec 2 - (natToDec 2 - 2) ≤ (natToDec 3 + (WAD - 1)) / WAD) ∧
    tryAdd U192_LIMIT 0 = none ∧
    trySub 2 3 = none ∧
    tryMul U192_LIMIT 1 = none ∧
    tryDiv 1 0 = none ∧
    natToDec 2 = powRaw (natToDec 2) 1 := by
  have hp : tryPow (natToDec 2) 1 = some (natToDec 2) := by
    simp [tryPow]
  refine ⟨?_, ?_, ?_, ?_, ?_, ?_⟩
  · exact decimal_roundtrip_and_checked_ops.1 (natToDec 2) (natToDec 3)
      666666666666666666 (natToDec 2 - 2) rfl rfl
  · exact (decimal_roundtrip_and_checked_ops.2.1 U192_LIMIT 0).1 (by omega)
  · exact (decimal_roundtrip_and_checked_ops.2.2.1 2 3).1 (by decide)
  · exact (decimal_roundtrip_and_checked_ops.2.2.2.1 U192_LIMIT 1).1 (by omega)
  · exact (decimal_roundtrip_and_checked_ops.2.2.2.2.1 1 0).1 rfl
  · exact (decimal_roundtrip_and_checked_ops.2.2.2.2.2 (natToDec 2) 1).1 (natToDec 2) hp

end TokenLending
